import Mathlib

/-!
Verification development for the whamm-fuel control-flow taint-slicing and
probe-synthesis pipeline.

The Rust sources are shallowly embedded below:
- `src/src/analyze.rs`: `Origin`, `OpKind`, `InstrInfo`, `FuncState`, `analyze`
  (embedded per-function as `analyzeStep` / `analyzeGo` / `analyzeFunc`, and per
  module as `analyzeModule`; the `ModuleIterator` loop in the source resets the
  taint state at each function start, which is exactly a per-function run).
- `src/src/utils.rs`: `stack_effects` (with its local helpers `block_effects`
  and `ty_effects`).  The `todo!()` arms of the source are embedded as
  `Except.error` with the `todo!` message; the embedded opcode alphabet `Op` is
  a representative subset of `wasmparser::Operator` (each embedded constructor
  is treated exactly as its source arm).
- `src/src/slice.rs`: `Slice`, `SliceResult`, `slice_program`/`slice`
  (worklist loop embedded as `sliceDispatch` / `sliceTrace`), and the
  structuralizer `save_structure` / `visit_op`.
- `src/src/reduce.rs`: `reduce_slice` / `reduce_visit_op` (the source body of
  `visit_op` there is literally `todo!()`).
- `src/src/codegen.rs`: `CodeGen::new` (`codeGenNew`), `gen_fuel_comp` /
  `gen_fuel_comp_exact`, probe naming and export from `gen_func`, and the
  slice-to-probe driver `gen_from_slices`.
- `src/src/run.rs`: the pipeline composition `do_analysis` (embedded as
  `doAnalysisCore` up to the externally-serialized probe descriptors).

Rust `HashMap`s are embedded as insertion-ordered association lists for their
contents; their (unspecified, per-process randomized) iteration order is
modeled by an explicit reorder oracle (`OrderOracle`) wherever the source
iterates a map (`CodeGen::new`).  Rust panics (`unwrap`, `todo!`, index out of
bounds, `assert!`) are embedded as `Except.error` with the panic message.
-/

set_option linter.unusedVariables false

instance {ε α : Type} [DecidableEq ε] [DecidableEq α] : DecidableEq (Except ε α) :=
  fun x y =>
    match x, y with
    | .ok a, .ok b => if h : a = b then .isTrue (by simp [h]) else .isFalse (by simp [h])
    | .error a, .error b => if h : a = b then .isTrue (by simp [h]) else .isFalse (by simp [h])
    | .ok _, .error _ => .isFalse (by simp)
    | .error _, .ok _ => .isFalse (by simp)

/-- Value types, from `wirm::DataType` as used by the sources
(`I32 | I64 | F32 | F64`; the reference/vector types never reach the
embedded arms). -/
inductive DataType
  | i32
  | i64
  | f32
  | f64
deriving DecidableEq, Repr

/-- Block types carried by `Block` / `Loop` / `If`
(`wasmparser::BlockType`): empty, a single value type, or a function type
index. -/
inductive BlockTy
  | empty
  | valType (dt : DataType)
  | funcType (type_index : ℕ)
deriving DecidableEq, Repr

/-- Embedded opcode alphabet: a representative subset of
`wasmparser::Operator`.  Each constructor is handled exactly as the
corresponding source arm in `analyze.rs` / `utils.rs::stack_effects`;
`refIsNull` and `tableGet` represent the opcode families whose
`stack_effects` arm is a `todo!()` (GC and table ops respectively). -/
inductive Op
  | i32Const (value : Int)
  | i64Const (value : Int)
  | localGet (local_index : ℕ)
  | localSet (local_index : ℕ)
  | localTee (local_index : ℕ)
  | globalGet (global_index : ℕ)
  | globalSet (global_index : ℕ)
  | i32Load
  | i64Load
  | i32Store
  | i32Add
  | i64Add
  | i32Eqz
  | select
  | brIf (relative_depth : ℕ)
  | brTable
  | brOnNull (relative_depth : ℕ)
  | brOnNonNull (relative_depth : ℕ)
  | brOnCast (relative_depth : ℕ)
  | brOnCastFail (relative_depth : ℕ)
  | if_ (blockty : BlockTy)
  | block (blockty : BlockTy)
  | loop (blockty : BlockTy)
  | else_
  | end_
  | br (relative_depth : ℕ)
  | return_
  | call (function_index : ℕ)
  | callIndirect (type_index : ℕ)
  | drop
  | nop
  | unreachable
  | refIsNull
  | tableGet (table : ℕ)
deriving DecidableEq, Repr

/-- A provenance/origin for a value (`analyze.rs::Origin`). -/
inductive Origin
  | instr (instr_idx : ℕ)
  | global (instr_idx : ℕ) (gid : ℕ)
  | param (instr_idx : ℕ) (lid : ℕ)
  | load (instr_idx : ℕ)
  | call (result_idx : ℕ) (instr_idx : ℕ)
  | callIndirect (result_idx : ℕ) (instr_idx : ℕ)
  | const (instr_idx : ℕ)
  | untracked
deriving DecidableEq, Repr

/-- Instruction index referenced by an origin, if any (every variant except
`untracked` carries an `instr_idx`). -/
def Origin.idx? : Origin → Option ℕ
  | .instr i => some i
  | .global i _ => some i
  | .param i _ => some i
  | .load i => some i
  | .call _ i => some i
  | .callIndirect _ i => some i
  | .const i => some i
  | .untracked => none

/-- Lightweight kind of operator (`analyze.rs::OpKind`). -/
inductive OpKind
  | Control
  | Other
deriving DecidableEq, Repr

/-- Record for each instruction seen (`analyze.rs::InstrInfo`). -/
structure InstrInfo where
  kind : OpKind
  inputs : List Origin
deriving DecidableEq, Repr

/-- Per-function analysis result (`analyze.rs::FuncState`). -/
structure FuncState where
  fid : ℕ
  total_params : ℕ
  instrs : List InstrInfo
deriving DecidableEq, Repr

/-- A function type: parameter and result value types
(`wirm Types::FuncType`). -/
structure FuncTy where
  params : List DataType
  results : List DataType
deriving DecidableEq, Repr

/-- The module context consulted by the analyzer and slicer: the type table,
the function-index-to-type-index table, and the global types
(`wasm.types` / `wasm.functions` / `wasm.globals`). -/
structure ModuleCtx where
  types : List FuncTy
  funcTypeIds : List ℕ
  globals : List DataType
deriving DecidableEq, Repr

/-- An input module for the pipeline: a context plus the local functions,
each a function id with its body opcodes. -/
structure ModuleInput where
  ctx : ModuleCtx
  funcs : List (ℕ × List Op)
deriving DecidableEq, Repr

/-- Helper of `utils.rs::stack_effects`: `ty_effects(extra_pop, tid, wasm)`. -/
def ty_effects (extra_pop : ℕ) (tid : ℕ) (ctx : ModuleCtx) :
    Except String (ℕ × ℕ) :=
  match ctx.types.get? tid with
  | some ft => .ok (ft.params.length + extra_pop, ft.results.length)
  | none => .error "Should have found a function type!"

/-- Helper of `utils.rs::stack_effects`: `block_effects(extra_pop, blockty, wasm)`. -/
def block_effects (extra_pop : ℕ) (blockty : BlockTy) (ctx : ModuleCtx) :
    Except String (ℕ × ℕ) :=
  match blockty with
  | .empty => .ok (extra_pop, 0)
  | .valType _ => .ok (extra_pop, 1)
  | .funcType tid => ty_effects extra_pop tid ctx

/-- Pops/pushes for an instruction (`utils.rs::stack_effects`).  The `todo!`
arms of the source (GC / table / atomic / SIMD / exception / stack-switching
opcodes) are embedded as errors carrying the `todo!` message. -/
def stack_effects (op : Op) (ctx : ModuleCtx) : Except String (ℕ × ℕ) :=
  match op with
  | .if_ blockty => block_effects 1 blockty ctx
  | .block blockty => block_effects 0 blockty ctx
  | .brIf _ | .brTable => .ok (1, 0)
  | .call function_index =>
    match ctx.funcTypeIds.get? function_index with
    | some tid => ty_effects 0 tid ctx
    | none => .error "function not found"
  | .callIndirect type_index => ty_effects 1 type_index ctx
  | .localGet _ => .ok (0, 1)
  | .localSet _ => .ok (1, 0)
  | .localTee _ => .ok (1, 1)
  | .globalGet _ => .ok (0, 1)
  | .globalSet _ => .ok (1, 0)
  | .i32Const _ | .i64Const _ => .ok (0, 1)
  | .i32Load | .i64Load => .ok (1, 1)
  | .i32Store => .ok (2, 0)
  | .drop => .ok (1, 0)
  | .unreachable => .ok (0, 0)
  | .nop => .ok (0, 0)
  | .loop blockty =>
    match blockty with
    | .empty => .ok (0, 0)
    | .funcType type_index => ty_effects 0 type_index ctx
    | .valType _ => .ok (0, 1)
  | .else_ => .ok (0, 0)
  | .end_ => .ok (0, 0)
  | .br _ => .ok (0, 0)
  | .return_ => .ok (0, 0)
  | .select => .ok (3, 1)
  | .i32Eqz => .ok (1, 1)
  | .i32Add | .i64Add => .ok (2, 1)
  | .brOnNull _ | .brOnNonNull _ | .brOnCast _ | .brOnCastFail _
  | .refIsNull => .error "support GC opcodes"
  | .tableGet _ => .error "support table ops"

/-- Opcodes whose `stack_effects` arm is a `todo!()` in the source, together
with the `todo!` message of that arm (the "not modeled by the stack-effects
table" set, restricted to the embedded alphabet). -/
def unsupportedMnemonic : Op → Option String
  | .brOnNull _ | .brOnNonNull _ | .brOnCast _ | .brOnCastFail _
  | .refIsNull => some "support GC opcodes"
  | .tableGet _ => some "support table ops"
  | _ => none

/-- Mutable state of the symbolic interpreter (`analyze.rs::FuncTaint`,
minus the constant fields; `FuncTaint::new` initializes `local_origin` to the
EMPTY vector — the sizing computation in the source is commented out). -/
structure TaintState where
  local_origin : List Origin
  stack : List Origin
  instrs : List InstrInfo
deriving DecidableEq, Repr

/-- Embedding of `state.stack.pop().unwrap()` — the operand stack is embedded head-as-top. -/
def popE : List Origin → Except String (Origin × List Origin)
  | [] => .error "stack underflow"
  | v :: rest => .ok (v, rest)

/-- The source pattern `for _ in 0..pops { inputs.insert(0, state.stack.pop().unwrap()) }`:
pop `n` values and return them deepest-first (so `inputs[0]` is the first
argument), together with the remaining stack. -/
def popN (n : ℕ) (s : List Origin) : Except String (List Origin × List Origin) :=
  if n ≤ s.length then .ok ((s.take n).reverse, s.drop n)
  else .error "stack underflow"

/-- One step of the symbolic interpreter: the per-opcode `match` of
`analyze.rs::analyze`, at instruction index `instr_idx`.  Panics of the
source (`unwrap` on an empty stack, the out-of-bounds indexed store into the
empty `local_origin` vector) are errors. -/
def analyzeStep (ctx : ModuleCtx) (ft : FuncTy) (instr_idx : ℕ) (op : Op)
    (st : TaintState) : Except String TaintState :=
  match op with
  | .i32Const _ | .i64Const _ =>
    .ok { st with stack := .const instr_idx :: st.stack,
                  instrs := st.instrs ++ [⟨.Other, []⟩] }
  | .localGet local_index =>
    let origin : Origin :=
      match st.local_origin.get? local_index with
      | some o => o
      | none =>
        if local_index < ft.params.length then .param instr_idx local_index
        else .untracked
    .ok { st with stack := origin :: st.stack,
                  instrs := st.instrs ++ [⟨.Other, []⟩] }
  | .localSet local_index => do
    let (val, rest) ← popE st.stack
    if local_index < st.local_origin.length then
      .ok { st with local_origin := st.local_origin.set local_index val,
                    stack := rest,
                    instrs := st.instrs ++ [⟨.Other, [val]⟩] }
    else .error "index out of bounds"
  | .localTee local_index => do
    let (val, rest) ← popE st.stack
    if local_index < st.local_origin.length then
      .ok { st with local_origin := st.local_origin.set local_index val,
                    stack := val :: rest,
                    instrs := st.instrs ++ [⟨.Other, [val]⟩] }
    else .error "index out of bounds"
  | .globalGet global_index =>
    .ok { st with stack := .global instr_idx global_index :: st.stack,
                  instrs := st.instrs ++ [⟨.Other, []⟩] }
  | .globalSet _ => do
    let (val, rest) ← popE st.stack
    .ok { st with stack := rest, instrs := st.instrs ++ [⟨.Other, [val]⟩] }
  | .i32Load | .i64Load => do
    let (addr_origin, rest) ← popE st.stack
    .ok { st with stack := .load instr_idx :: rest,
                  instrs := st.instrs ++ [⟨.Other, [addr_origin]⟩] }
  | .i32Store => do
    let (val, rest1) ← popE st.stack
    let (addr, rest) ← popE rest1
    .ok { st with stack := rest, instrs := st.instrs ++ [⟨.Other, [addr, val]⟩] }
  | .i32Add | .i64Add => do
    let (b, rest1) ← popE st.stack
    let (a, rest) ← popE rest1
    .ok { st with stack := .instr instr_idx :: rest,
                  instrs := st.instrs ++ [⟨.Other, [a, b]⟩] }
  | .i32Eqz => do
    let (a, rest) ← popE st.stack
    .ok { st with stack := .instr instr_idx :: rest,
                  instrs := st.instrs ++ [⟨.Other, [a]⟩] }
  | .select => do
    let (cond, rest1) ← popE st.stack
    let (val2, rest2) ← popE rest1
    let (val1, rest) ← popE rest2
    .ok { st with stack := .instr instr_idx :: rest,
                  instrs := st.instrs ++ [⟨.Control, [val1, val2, cond]⟩] }
  | .brIf _ | .brTable | .brOnNull _ | .brOnNonNull _ | .brOnCast _
  | .brOnCastFail _ | .if_ _ => do
    let (cond, rest) ← popE st.stack
    .ok { st with stack := rest, instrs := st.instrs ++ [⟨.Control, [cond]⟩] }
  | .call function_index => do
    match ctx.funcTypeIds.get? function_index with
    | none => .error "function not found"
    | some tid =>
      match ctx.types.get? tid with
      | none => .error "Should have found a function type!"
      | some fty => do
        let (inputs, rest) ← popN fty.params.length st.stack
        let pushed := ((List.range fty.results.length).map
          (fun i => Origin.call i instr_idx)).reverse
        .ok { st with stack := pushed ++ rest,
                      instrs := st.instrs ++ [⟨.Other, inputs⟩] }
  | .callIndirect type_index => do
    match ctx.types.get? type_index with
    | none => .error "Should have found a function type!"
    | some fty => do
      let (inputs, rest) ← popN fty.params.length st.stack
      let pushed := ((List.range fty.results.length).map
        (fun i => Origin.callIndirect i instr_idx)).reverse
      .ok { st with stack := pushed ++ rest,
                    instrs := st.instrs ++ [⟨.Other, inputs⟩] }
  | .return_ =>
    -- `for _ in 0..state.total_results { state.stack.pop(); }` — pops without
    -- unwrap, and pushes NO `InstrInfo` record.
    .ok { st with stack := st.stack.drop ft.results.length }
  | .block _ | .loop _ | .else_ | .end_ | .br _ | .drop | .nop
  | .unreachable | .refIsNull | .tableGet _ => do
    let (eff : ℕ × ℕ) ← stack_effects op ctx
    let (inputs, rest) ← popN eff.1 st.stack
    .ok { st with stack := List.replicate eff.2 .untracked ++ rest,
                  instrs := st.instrs ++ [⟨.Other, inputs⟩] }

/-- Run the symbolic interpreter over a body, starting at instruction index
`k` (`analyze.rs::analyze`, the per-opcode loop of one function). -/
def analyzeGo (ctx : ModuleCtx) (ft : FuncTy) :
    ℕ → TaintState → List Op → Except String TaintState
  | _, st, [] => .ok st
  | k, st, op :: rest => do
    let st' ← analyzeStep ctx ft k op st
    analyzeGo ctx ft (k + 1) st' rest

/-- Analyze a single function: `FuncTaint::new` (type lookup; `local_origin`
starts EMPTY) followed by the interpreter loop, and the final
`assert!(state.stack.len() == state.total_results || state.stack.is_empty())`. -/
def analyzeFunc (ctx : ModuleCtx) (fid : ℕ) (body : List Op) :
    Except String FuncState :=
  match ctx.funcTypeIds.get? fid with
  | none => .error "function not found"
  | some tid =>
    match ctx.types.get? tid with
    | none => .error "Should have found a function type!"
    | some ft => do
      let st ← analyzeGo ctx ft 0 ⟨[], [], []⟩ body
      if st.stack.length = ft.results.length ∨ st.stack = [] then
        .ok ⟨fid, ft.params.length, st.instrs⟩
      else .error "still had stack values leftover"

/-- Analyze every function of a module (`analyze.rs::analyze`; the
`ModuleIterator` loop resets the taint state at the start of each function,
so the module run is the sequence of per-function runs). -/
def analyzeModule (m : ModuleInput) : Except String (List FuncState) :=
  m.funcs.mapM (fun f => analyzeFunc m.ctx f.1 f.2)

-- Sanity examples (concrete evaluation of the embedded analyzer).
example :
    analyzeFunc ⟨[⟨[.i32], []⟩], [0], []⟩ 0
      [.localGet 0, .if_ .empty, .end_, .end_] =
    .ok ⟨0, 1, [⟨.Other, []⟩, ⟨.Control, [.param 0 0]⟩, ⟨.Other, []⟩,
                ⟨.Other, []⟩]⟩ := by decide

example :
    analyzeFunc ⟨[⟨[], []⟩], [0], []⟩ 0
      [.i32Const 0, .localSet 0, .end_] = .error "index out of bounds" := by
  decide

/-! ## Association-list embedding of `HashMap` contents -/

/-- Contents-level embedding of `HashMap::insert`: replace the value if the
key is present (reporting `true`, the source's `.is_some()` on the returned
old value), otherwise append the new entry. -/
def hmInsert {κ β : Type} [DecidableEq κ] :
    List (κ × β) → κ → β → List (κ × β) × Bool
  | [], k, v => ([(k, v)], false)
  | (k', v') :: rest, k, v =>
    if k' = k then ((k, v) :: rest, true)
    else
      let r := hmInsert rest k v
      ((k', v') :: r.1, r.2)

/-- Contents-level embedding of `HashMap::get`. -/
def assocGet {κ β : Type} [DecidableEq κ] : List (κ × β) → κ → Option β
  | [], _ => none
  | (k', v) :: rest, k => if k' = k then some v else assocGet rest k

/-- Insert-or-replace, discarding the presence flag (used for
`SliceResult::add_slice`). -/
def assocSet {κ β : Type} [DecidableEq κ] (m : List (κ × β)) (k : κ) (v : β) :
    List (κ × β) :=
  (hmInsert m k v).1

/-! ## Slicer (`src/src/slice.rs`) -/

/-- Per-region slice (`slice.rs::Slice`).  The three index sets are embedded
as `Finset ℕ` (the source's `HashSet<usize>`); the five state maps as
insertion-ordered association lists (the source's `HashMap` contents). -/
structure Slice where
  start_instr_idx : ℕ
  end_instr_idx : ℕ
  spec_name : String
  max_slice : Finset ℕ
  min_slice : Finset ℕ
  instrs_support : Finset ℕ
  params : List ((ℕ × ℕ) × DataType)
  globals : List ((ℕ × ℕ) × DataType)
  loads : List (ℕ × DataType)
  calls : List ((ℕ × ℕ) × DataType)
  call_indirects : List ((ℕ × ℕ) × DataType)
  taken : List (ℕ × DataType)
deriving DecidableEq

/-- Result of the slice analysis for one function (`slice.rs::SliceResult`);
`slices` maps a start instruction index to its `Slice`. -/
structure SliceResult where
  fid : ℕ
  total_params : ℕ
  slices : List (ℕ × Slice)
deriving DecidableEq

/-- Mutable state of the backward-slicing worklist loop in `slice.rs::slice`
(the `worklist` deque and the `included_*` collections). -/
structure SliceSt where
  worklist : List Origin
  included_instrs : Finset ℕ
  included_params : List ((ℕ × ℕ) × DataType)
  included_globals : List ((ℕ × ℕ) × DataType)
  included_loads : List (ℕ × DataType)
  included_calls : List ((ℕ × ℕ) × DataType)
  included_call_indirects : List ((ℕ × ℕ) × DataType)
deriving DecidableEq

/-- Dispatch of one popped origin in the worklist loop of `slice.rs::slice`
(lines 122-221).  `fullOps` is the function's complete body (for `op_at`,
which indexes by absolute instruction index), `instrs_info` is the
(sub)region's `InstrInfo` list as passed to `slice`, `func_params` the
function's parameter types.  Panics of the source (`op_at` out of range,
unsupported load/call shapes, missing types) are errors.  NOTE: the source's
`match origin` has NO arm for `Origin::Const` (the match is non-exhaustive as
written); the embedding surfaces that missing arm as an error. -/
def sliceDispatch (ctx : ModuleCtx) (fullOps : List Op)
    (func_params : List DataType) (instrs_info : List InstrInfo)
    (origin : Origin) (s : SliceSt) : Except String SliceSt :=
  match origin with
  | .instr instr_idx =>
    if instr_idx ∈ s.included_instrs then .ok s
    else
      let inputs := ((instrs_info.get? instr_idx).map (fun i => i.inputs)).getD []
      .ok { s with included_instrs := insert instr_idx s.included_instrs,
                   worklist := s.worklist ++ inputs }
  | .load instr_idx =>
    match fullOps.get? instr_idx with
    | none => .error "op_at: no operator at index"
    | some op =>
      let load_ty : Except String DataType :=
        match op with
        | .i32Load => .ok .i32
        | .i64Load => .ok .i64
        | _ => .error "Load opcode not supported"
      match load_ty with
      | .error e => .error e
      | .ok ty =>
        let r := hmInsert s.included_loads instr_idx ty
        if r.2 then .ok { s with included_loads := r.1 }
        else .ok { s with included_loads := r.1,
                          included_instrs := insert instr_idx s.included_instrs }
  | .call result_idx instr_idx =>
    match fullOps.get? instr_idx with
    | none => .error "op_at: no operator at index"
    | some op =>
      match op with
      | .call function_index =>
        match ctx.funcTypeIds.get? function_index with
        | none => .error "function not found"
        | some tid =>
          match ctx.types.get? tid with
          | none => .error "Should have found a function type!"
          | some fty =>
            match fty.results.get? result_idx with
            | none => .error "result index out of bounds"
            | some ty =>
              let r := hmInsert s.included_calls (instr_idx, result_idx) ty
              if r.2 then .ok { s with included_calls := r.1 }
              else .ok { s with included_calls := r.1,
                                included_instrs := insert instr_idx s.included_instrs }
      | _ => .error "Call opcode not supported"
  | .callIndirect result_idx instr_idx =>
    match fullOps.get? instr_idx with
    | none => .error "op_at: no operator at index"
    | some op =>
      match op with
      | .callIndirect type_index =>
        match ctx.types.get? type_index with
        | none => .error "Should have found a function type!"
        | some fty =>
          match fty.results.get? result_idx with
          | none => .error "result index out of bounds"
          | some ty =>
            let r := hmInsert s.included_call_indirects (instr_idx, result_idx) ty
            if r.2 then .ok { s with included_call_indirects := r.1 }
            else .ok { s with included_call_indirects := r.1,
                              included_instrs := insert instr_idx s.included_instrs }
      | _ => .error "CallIndirect opcode not supported"
  | .global instr_idx gid =>
    match ctx.globals.get? gid with
    | none => .error "global not found"
    | some ty =>
      .ok { s with included_globals := (hmInsert s.included_globals (gid, instr_idx) ty).1,
                   included_instrs := insert instr_idx s.included_instrs }
  | .param instr_idx lid =>
    match func_params.get? lid with
    | none => .error "param index out of bounds"
    | some ty =>
      .ok { s with included_params := (hmInsert s.included_params (lid, instr_idx) ty).1,
                   included_instrs := insert instr_idx s.included_instrs }
  | .const _ => .error "non-exhaustive match on Origin::Const"
  | .untracked => .ok s

/-- The backward-slicing worklist loop of `slice.rs::slice`
(`while let Some(origin) = worklist.pop_front()`), with an explicit fuel
to express it in Lean; `sliceTraceFuel` below is provably enough fuel. -/
def sliceTrace (ctx : ModuleCtx) (fullOps : List Op)
    (func_params : List DataType) (instrs_info : List InstrInfo) :
    ℕ → SliceSt → Except String SliceSt
  | 0, s => .ok s
  | fuel + 1, s =>
    match s.worklist with
    | [] => .ok s
    | origin :: rest =>
      match sliceDispatch ctx fullOps func_params instrs_info origin
          { s with worklist := rest } with
      | .error e => .error e
      | .ok s' => sliceTrace ctx fullOps func_params instrs_info fuel s'

/-- Weight of one origin edge bundle: processing instruction `j` costs one
worklist pop plus at most one enqueue per input edge of `j`. -/
def originEdges (instrs_info : List InstrInfo) (j : ℕ) : ℕ :=
  1 + (((instrs_info.get? j).map (fun i => i.inputs.length)).getD 0)

/-- Fuel bound for the worklist loop: the pending worklist entries plus one
traversal of every origin edge of every not-yet-included instruction. -/
def sliceTraceFuel (instrs_info : List InstrInfo) (s : SliceSt) : ℕ :=
  s.worklist.length +
    ∑ j ∈ Finset.range instrs_info.length \ s.included_instrs,
      originEdges instrs_info j

/-- Modelled from the spec: `is_loop(op) → option<...>` (§6), a pure test for
the `Loop` opcode; missing from `src/` (only its callers in `slice.rs` are
present).  The call sites use `is_loop(true_instr_idx, op).is_some()`. -/
def is_loop (instr_idx : ℕ) (op : Op) : Option ℕ :=
  match op with
  | .loop _ => some instr_idx
  | _ => none

/-- Block-opener test used by bracket matching (`If` / `Block` / `Loop`). -/
def isBlockOpener (op : Op) : Bool :=
  match op with
  | .if_ _ | .block _ | .loop _ => true
  | _ => false

/-- Modelled from the spec: `find_subsection_end(tail) → usize` for
nested-block bracket matching (§6, §4.2 "locate the matching `End` via
bracket-matching"); missing from `src/` (only its caller in `slice.rs` is
present).  Returns the index, within `tail`, of the `End` matching the block
opened just before `tail` (used as the exclusive end of the sub-region). -/
def findSubEnd (depth : ℕ) : List Op → ℕ
  | [] => 0
  | op :: rest =>
    if isBlockOpener op then 1 + findSubEnd (depth + 1) rest
    else if op = .end_ then
      if depth = 0 then 0 else 1 + findSubEnd (depth - 1) rest
    else 1 + findSubEnd depth rest

/-- Modelled from the spec: see `findSubEnd`. -/
def find_subsection_end (tail : List Op) : ℕ :=
  findSubEnd 0 tail

/-- Assemble the `Slice` committed by `slice.rs::slice` at the end of one
region (`result.add_slice(true_start, Slice { .. })`; the fields not listed in
the source's struct literal come from `Default::default()`). -/
def mkSlice (spec_name : String) (true_start : ℕ) (info_len : ℕ) (s : SliceSt) :
    Slice :=
  { start_instr_idx := true_start
    end_instr_idx := true_start + info_len
    spec_name := spec_name
    max_slice := s.included_instrs
    min_slice := ∅
    instrs_support := ∅
    params := s.included_params
    globals := s.included_globals
    loads := s.included_loads
    calls := s.included_calls
    call_indirects := s.included_call_indirects
    taken := [] }

mutual
/-- The body of `slice.rs::slice` for one region: the seed walk (recursing
into `loop` sub-regions), the worklist loop, and the final `add_slice`.
`fuel` only bounds the recursion depth/steps for Lean; it is threaded through
every recursive call. -/
def sliceFn (fuel : ℕ) (ctx : ModuleCtx) (fullOps : List Op)
    (func_params : List DataType) (spec_name : String) (true_start : ℕ)
    (instrs_info : List InstrInfo) (acc : List (ℕ × Slice)) :
    Except String (List (ℕ × Slice)) :=
  match fuel with
  | 0 => .error "out of fuel"
  | fuel + 1 => do
    let r ← sliceSeedWalk fuel ctx fullOps func_params true_start instrs_info
      0 [] ∅ acc
    let s0 : SliceSt := ⟨r.1, r.2.1, [], [], [], [], []⟩
    let s ← sliceTrace ctx fullOps func_params instrs_info
      (sliceTraceFuel instrs_info s0) s0
    .ok (assocSet r.2.2 true_start
      (mkSlice spec_name true_start instrs_info.length s))

/-- The seed loop of `slice.rs::slice` (lines 93-119): walk the region; on a
`Loop`, recurse on the sub-region via `sliceFn` and skip past its `End`; on a
`Control` record, seed the worklist with its inputs and include the sink. -/
def sliceSeedWalk (fuel : ℕ) (ctx : ModuleCtx) (fullOps : List Op)
    (func_params : List DataType) (true_start : ℕ)
    (instrs_info : List InstrInfo) (i : ℕ) (worklist : List Origin)
    (included : Finset ℕ) (acc : List (ℕ × Slice)) :
    Except String (List Origin × Finset ℕ × List (ℕ × Slice)) :=
  match fuel with
  | 0 => .error "out of fuel"
  | fuel + 1 =>
    if i < instrs_info.length then
      let true_instr_idx := true_start + i
      match fullOps.get? true_instr_idx with
      | none => .error "op_at: no operator at index"
      | some op =>
        if (is_loop true_instr_idx op).isSome then do
          let sub_end := find_subsection_end (fullOps.drop (i + 1))
          let sub_sec := (instrs_info.drop (i + 1)).take sub_end
          let sub_name := "_loop_at_" ++ toString true_instr_idx
          let acc' ← sliceFn fuel ctx fullOps func_params sub_name
            (true_instr_idx + 1) sub_sec acc
          -- `i += end + 1` inside the branch, then the loop's own `i += 1`.
          sliceSeedWalk fuel ctx fullOps func_params true_start instrs_info
            (i + sub_end + 2) worklist included acc'
        else
          match instrs_info.get? i with
          | none => .error "instruction info missing"
          | some info =>
            match info.kind with
            | .Control =>
              sliceSeedWalk fuel ctx fullOps func_params true_start instrs_info
                (i + 1) (worklist ++ info.inputs)
                (insert true_instr_idx included) acc
            | .Other =>
              sliceSeedWalk fuel ctx fullOps func_params true_start instrs_info
                (i + 1) worklist included acc
    else .ok (worklist, included, acc)
end

/-- Canonical fuel for `sliceFn`: enough for the seed walks of every nested
sub-region (each instruction participates in at most `length` nested
regions). -/
def sliceFuel (instrs_info : List InstrInfo) : ℕ :=
  (instrs_info.length + 2) * (instrs_info.length + 2)

/-- Per-module slicing (`slice.rs::slice_program`): for each analyzed
function, look up its body and parameter types and slice the whole region
starting at 0 with an empty `spec_name`. -/
def slice_program (m : ModuleInput) (func_taints : List FuncState) :
    Except String (List SliceResult) :=
  func_taints.mapM (fun taint => do
    match assocGet m.funcs taint.fid with
    | none => .error "unwrap_local: function not found"
    | some body =>
      match m.ctx.funcTypeIds.get? taint.fid with
      | none => .error "function not found"
      | some tid =>
        match m.ctx.types.get? tid with
        | none => .error "Should have found a function type!"
        | some fty => do
          let slices ← sliceFn (sliceFuel taint.instrs) m.ctx body fty.params
            "" 0 taint.instrs []
          .ok (⟨taint.fid, taint.total_params, slices⟩ : SliceResult))

/-! ## Structuralizer (`src/src/slice.rs`, lines 240-353) -/

/-- Modelled from the spec: `is_branching(op) → bool` ("all
conditional/tabled/on-cast/on-null variants and unconditional `Br`", §6);
missing from `src/` (only its callers in `slice.rs` / `codegen.rs` are
present). -/
def is_branching_op (op : Op) : Bool :=
  match op with
  | .br _ | .brIf _ | .brTable | .brOnNull _ | .brOnNonNull _ | .brOnCast _
  | .brOnCastFail _ => true
  | _ => false

/-- State of the structure-identification pass
(`slice.rs::IdentifyStructure`).  The source's `Vec` stacks are embedded
head-as-top. -/
structure IdentifyStructure where
  nested_blocks : List ℕ
  block_support_instrs : Finset ℕ
  block_has_instrs : Bool
  save_block_for_slice : List Bool
deriving DecidableEq

/-- The all-default initial state (`IdentifyStructure::default()`). -/
def IdentifyStructure.init : IdentifyStructure := ⟨[], ∅, false, []⟩

def IdentifyStructure.in_block (st : IdentifyStructure) : Bool :=
  !st.nested_blocks.isEmpty

def IdentifyStructure.block_enter (st : IdentifyStructure) (instr_idx : ℕ) :
    IdentifyStructure :=
  { st with nested_blocks := instr_idx :: st.nested_blocks,
            save_block_for_slice := false :: st.save_block_for_slice }

/-- Embedding of `block_exit`: pop both stacks; clearing `block_has_instrs` when the last
frame is gone. -/
def IdentifyStructure.block_exit (st : IdentifyStructure) :
    Option ℕ × Option Bool × IdentifyStructure :=
  let block_idx := st.nested_blocks.head?
  let should_save := st.save_block_for_slice.head?
  let nb := st.nested_blocks.tail
  let st' := { st with nested_blocks := nb,
                       save_block_for_slice := st.save_block_for_slice.tail }
  (block_idx, should_save,
    if nb.isEmpty then { st' with block_has_instrs := false } else st')

/-- Embedding of `save_block_for_slice`: set the top frame's save bit.  The source
`unwrap_or_else(|| unreachable!())`s on an empty stack; every call site runs
immediately after `block_enter`, so the stack is provably nonempty there and
the empty case below is dead. -/
def IdentifyStructure.save_top (st : IdentifyStructure) : IdentifyStructure :=
  match st.save_block_for_slice with
  | [] => st
  | _ :: t => { st with save_block_for_slice := true :: t }

def IdentifyStructure.add_block_support (st : IdentifyStructure)
    (instr_idx : ℕ) : IdentifyStructure :=
  { st with block_support_instrs := insert instr_idx st.block_support_instrs }

def IdentifyStructure.use_block_support (st : IdentifyStructure) :
    Finset ℕ × IdentifyStructure :=
  (st.block_support_instrs, { st with block_support_instrs := ∅ })

/-- Embedding of `slice.rs::visit_op` (lines 305-352), the structuralizer step: returns
the support opcodes to commit at this position, and the updated state. -/
def visit_op (op : Op) (instr_idx : ℕ) (at_func_end : Bool)
    (is_in_slice : Bool) (state : IdentifyStructure) :
    Finset ℕ × IdentifyStructure :=
  let is_cf := is_branching_op op || op = .return_
  let is_block :=
    match op with
    | .if_ _ | .block _ | .loop _ => true
    | _ => false
  let r : Finset ℕ × IdentifyStructure :=
    if is_block then
      let st1 := state.block_enter instr_idx
      let st2 := if is_in_slice then st1.save_top else st1
      (∅, st2)
    else if op = .else_ then
      (∅, state.add_block_support instr_idx)
    else if op = .end_ then
      let st1 := state.add_block_support instr_idx
      let block_has_instrs := st1.block_has_instrs
      let exited : Option ℕ × Option Bool × IdentifyStructure :=
        if !at_func_end then st1.block_exit else (none, none, st1)
      if block_has_instrs || (exited.2.1.getD false) then
        let used := exited.2.2.use_block_support
        let res :=
          match exited.1 with
          | some block_idx => insert block_idx used.1
          | none => used.1
        (res, used.2)
      else (∅, exited.2.2)
    else
      let st1 :=
        if is_in_slice && state.in_block then
          { state with block_has_instrs := true }
        else state
      let st2 := if is_cf then st1.add_block_support instr_idx else st1
      (∅, st2)
  -- "should only return ... if we want to include it, and it's not already in
  -- the slice!" — the filter applies to the returned set only.
  (if !is_in_slice then r.1 else ∅, r.2)

/-- One slice's structuralization (`slice.rs::save_structure`, the inner
loop): walk the whole body with fresh state, extending `instrs_support` with
each step's committed support set. -/
def save_structure_slice (body : List Op) (slice : Slice) : Slice :=
  let final := body.enum.foldl
    (fun (acc : IdentifyStructure × Finset ℕ) (iop : ℕ × Op) =>
      let r := visit_op iop.2 iop.1 (iop.1 = body.length - 1)
        (iop.1 ∈ slice.max_slice) acc.1
      (r.2, acc.2 ∪ r.1))
    (IdentifyStructure.init, slice.instrs_support)
  { slice with instrs_support := final.2 }

/-- Embedding of `slice.rs::save_structure`: structuralize every slice of every function
(processing each slice with its function's body). -/
def save_structure (m : ModuleInput) (slices : List SliceResult)
    (funcs : List FuncState) : Except String (List SliceResult) :=
  (slices.zip funcs).mapM (fun rf => do
    match assocGet m.funcs rf.2.fid with
    | none => .error "unwrap_local: function not found"
    | some body =>
      .ok { rf.1 with
              slices := rf.1.slices.map
                (fun ks => (ks.1, save_structure_slice body ks.2)) })

/-! ## Reducer (`src/src/reduce.rs`) -/

/-- State of the minimal-slice pass (`reduce.rs::MinSliceState`; identical in
shape to `IdentifyStructure`). -/
structure MinSliceState where
  nested_blocks : List ℕ
  block_support_instrs : Finset ℕ
  block_has_instrs : Bool
  save_block_for_slice : List Bool
deriving DecidableEq

/-- Embedding of `reduce.rs::visit_op`: the body in the source is literally `todo!()`, so
every call panics with the `todo!` message. -/
def reduce_visit_op (op : Op) (instr_idx : ℕ) (at_func_end : Bool)
    (is_in_slice : Bool) (state : MinSliceState) :
    Except String (Finset ℕ × MinSliceState) :=
  .error "not yet implemented"

/-- The inner loop of `reduce.rs::reduce_slice` for one slice: visit every
body opcode, extending `instrs_support` with the returned set.  (Note the
source extends `instrs_support` — it never touches `min_slice` or `taken`.) -/
def reduce_slice_func (body : List Op) (slice : Slice) : Except String Slice := do
  let r ← body.enum.foldlM
    (fun (acc : MinSliceState × Slice) (iop : ℕ × Op) => do
      let v ← reduce_visit_op iop.2 iop.1 (iop.1 = body.length - 1)
        (iop.1 ∈ acc.2.max_slice) acc.1
      .ok (v.2, { acc.2 with instrs_support := acc.2.instrs_support ∪ v.1 }))
    (⟨[], ∅, false, []⟩, slice)
  .ok r.2

/-! ## Probe synthesizer (`src/src/codegen.rs`, signature-level) -/

/-- Fuel-computation variant (`run.rs::CompType`). -/
inductive CompType
  | Exact
  | Approx
deriving DecidableEq, Repr

/-- The `Display for CompType` instance (`run.rs`). -/
def CompType.str : CompType → String
  | .Exact => "exact"
  | .Approx => "approx"

/-- Embedding of `codegen.rs::CallState`. -/
structure CallState where
  used_arg : ℕ
  gen_param_id : ℕ
deriving DecidableEq, Repr

/-- The dependency-to-parameter maps built by `CodeGen::new`
(`codegen.rs::CodeGen` / `GeneratedFunc`).  Keys are the keys of the slice's
state maps as fed to `process_needed_state` (the source's struct field types
disagree with that — `for_params: HashMap<u32, u32>` vs the `(u32, usize)`
keys of `slice.params` — another spot where the snapshot does not compile;
the embedding keys by what `process_needed_state` receives). -/
structure CodeGenMaps where
  for_params : List ((ℕ × ℕ) × ℕ)
  for_globals : List ((ℕ × ℕ) × ℕ)
  for_loads : List (ℕ × ℕ)
  for_calls : List (ℕ × CallState)
  for_call_indirects : List (ℕ × CallState)
deriving DecidableEq, Repr

/-- The five state maps of one slice in the order their entries are yielded
by the source's `HashMap` iteration (`needed_state.iter()` in
`CodeGen::new`).  Rust's `HashMap` iteration order is unspecified and
randomized per process; an `OrderOracle` below chooses it. -/
structure OrderedMaps where
  params : List ((ℕ × ℕ) × DataType)
  globals : List ((ℕ × ℕ) × DataType)
  loads : List (ℕ × DataType)
  calls : List ((ℕ × ℕ) × DataType)
  call_indirects : List ((ℕ × ℕ) × DataType)
deriving DecidableEq, Repr

/-- A model of the `HashMap` iteration order: a reordering applied to the
(insertion-ordered) contents of each map before `CodeGen::new` consumes
them.  A lawful oracle (see `OrderOracle.Lawful`) yields each map's entries
exactly once in some order, which is all Rust guarantees. -/
structure OrderOracle where
  permPair : List ((ℕ × ℕ) × DataType) → List ((ℕ × ℕ) × DataType)
  permLoad : List (ℕ × DataType) → List (ℕ × DataType)

/-- Lawfulness of an iteration-order model: it permutes the entries. -/
def OrderOracle.Lawful (o : OrderOracle) : Prop :=
  (∀ l, (o.permPair l).Perm l) ∧ (∀ l, (o.permLoad l).Perm l)

/-- The identity iteration order. -/
def idOracle : OrderOracle := ⟨id, id⟩

/-- The reversed iteration order (also a legal `HashMap` behavior). -/
def revOracle : OrderOracle := ⟨List.reverse, List.reverse⟩

/-- Apply an iteration-order model to one slice's state maps. -/
def applyOracle (o : OrderOracle) (s : Slice) : OrderedMaps :=
  { params := o.permPair s.params
    globals := o.permPair s.globals
    loads := o.permLoad s.loads
    calls := o.permPair s.calls
    call_indirects := o.permPair s.call_indirects }

/-- Helper of `CodeGen::new`, `process_needed_state`: for each yielded entry,
record `key -> used_params.len()` and push the entry's type. -/
def process_needed_state {κ : Type} [DecidableEq κ]
    (needed_state : List (κ × DataType)) (used_params : List DataType) :
    List (κ × ℕ) × List DataType :=
  needed_state.foldl
    (fun (acc : List (κ × ℕ) × List DataType) e =>
      ((hmInsert acc.1 e.1 acc.2.length).1, acc.2 ++ [e.2]))
    ([], used_params)

/-- Helper of `CodeGen::new`, `process_needed_call`: keyed by the call's
`opidx` only (several used results of one call collapse to the last entry
yielded). -/
def process_needed_call (needed_state : List ((ℕ × ℕ) × DataType))
    (used_params : List DataType) : List (ℕ × CallState) × List DataType :=
  needed_state.foldl
    (fun (acc : List (ℕ × CallState) × List DataType) e =>
      ((hmInsert acc.1 e.1.1 ⟨e.1.2, acc.2.length⟩).1, acc.2 ++ [e.2]))
    ([], used_params)

/-- Embedding of `codegen.rs::CodeGen::new` (lines 68-105): build the parameter
assignment maps and the probe's parameter type list, consuming the five
state maps in the fixed order params, globals, loads, calls,
call_indirects. -/
def codeGenNew (om : OrderedMaps) : CodeGenMaps × List DataType :=
  let p := process_needed_state om.params []
  let g := process_needed_state om.globals p.2
  let l := process_needed_state om.loads g.2
  let c := process_needed_call om.calls l.2
  let ci := process_needed_call om.call_indirects c.2
  (⟨p.1, g.1, l.1, c.1, ci.1⟩, ci.2)

/-- Embedding of `codegen.rs::op_cost`: "assumes 1 for now". -/
def op_cost (op : Op) : ℕ := 1

/-- The `as i64` cast of the running `u64` cost
(`func.i64_const(state.curr_cost as i64)`). -/
def i64OfU64 (c : ℕ) : Int :=
  if c < 2 ^ 63 then (c : Int) else (c : Int) - 2 ^ 64

/-- Embedding of `codegen.rs::calc_op_cost` (lines 266-291): add the opcode's cost to the
running per-basic-block total, and decide whether the fuel-accumulation
sequence must be emitted before this opcode (control-flow opcode in the
slice, or function end). -/
def calc_op_cost (is_in_slice : Bool) (at_func_end : Bool) (op : Op)
    (curr_cost : ℕ) : ℕ × Bool :=
  let curr_cost := curr_cost + op_cost op
  let is_cf := is_branching_op op ||
    (match op with
     | .if_ _ | .else_ | .end_ | .return_ => true
     | _ => false)
  (curr_cost, (is_cf && is_in_slice) || at_func_end)

/-- Embedding of `codegen.rs::gen_fuel_comp_exact` (lines 300-307): when the running cost
is positive, emit `local.get fuel; i64.const cost; i64.add; local.set fuel`;
otherwise emit nothing. -/
def gen_fuel_comp_exact (fuel : ℕ) (curr_cost : ℕ) : List Op :=
  if curr_cost > 0 then
    [.localGet fuel, .i64Const (i64OfU64 curr_cost), .i64Add, .localSet fuel]
  else []

/-- Embedding of `codegen.rs::gen_fuel_comp`: route on the variant;
`gen_fuel_comp_approx` is `todo!()` in the source. -/
def gen_fuel_comp (ty : CompType) (fuel : ℕ) (curr_cost : ℕ) :
    Except String (List Op) :=
  match ty with
  | .Exact => .ok (gen_fuel_comp_exact fuel curr_cost)
  | .Approx => .error "not yet implemented"

/-- The externally visible description of one emitted probe: its export name
(`format!("{}{}{}", ty, orig_fid, spec_name)` in `gen_func`), its parameter
type list (`used_params` fed to `FunctionBuilder::new`), and the parameter
assignment maps recorded in `GeneratedFunc`.  The probe's body is a function
of these maps and the slice, so determinism of the descriptors decides
determinism of the emitted module. -/
structure ProbeDesc where
  fname : String
  usedParams : List DataType
  maps : CodeGenMaps
deriving DecidableEq, Repr

/-- The signature-level part of `codegen.rs::gen_func`: `CodeGen::new` on
the slice's maps (in oracle-chosen iteration order), probe parameter list,
and the export name. -/
def gen_func_desc (ty : CompType) (orig_fid : ℕ) (spec_name : String)
    (om : OrderedMaps) : ProbeDesc :=
  let r := codeGenNew om
  { fname := ty.str ++ toString orig_fid ++ spec_name
    usedParams := r.2
    maps := r.1 }

/-- Embedding of `codegen.rs::gen_from_slices`: walk the body indices in increasing order
and emit one probe per slice that starts there. -/
def gen_from_slices (o : OrderOracle) (ty : CompType) (orig_fid : ℕ)
    (body : List Op) (func_slices : SliceResult) : List ProbeDesc :=
  (List.range body.length).filterMap (fun i =>
    (assocGet func_slices.slices i).map (fun sl =>
      gen_func_desc ty orig_fid sl.spec_name (applyOracle o sl)))

/-- Embedding of `codegen.rs::codegen`, descriptor-level: per function, look up the body
and generate the probes for its slices. -/
def codegen (o : OrderOracle) (ty : CompType) (m : ModuleInput)
    (slices : List SliceResult) (funcs : List FuncState) :
    Except String (List (ℕ × List ProbeDesc)) :=
  (slices.zip funcs).mapM (fun sf => do
    match assocGet m.funcs sf.2.fid with
    | none => .error "unwrap_local: function not found"
    | some body =>
      .ok (sf.2.fid, gen_from_slices o ty sf.2.fid body sf.1))

/-- The analyze-slice-structuralize prefix of `run.rs::do_analysis`
(everything before probe generation; oracle-free). -/
def pipelineSlices (m : ModuleInput) : Except String (List SliceResult) := do
  let func_taints ← analyzeModule m
  let slices ← slice_program m func_taints
  save_structure m slices func_taints

/-- The pipeline `run.rs::do_analysis` up to the externally-serialized
output: analyze, slice, structuralize, then generate probe descriptors
(`Module::encode` and file I/O are external collaborators; the encoder is a
deterministic function of the generated module, which is a function of the
descriptors). -/
def doAnalysisCore (o : OrderOracle) (ty : CompType) (m : ModuleInput) :
    Except String (List (ℕ × List ProbeDesc)) := do
  let func_taints ← analyzeModule m
  let slices ← pipelineSlices m
  codegen o ty m slices func_taints

/-! ## Verification-side predicates and the spec-side ordering -/

/-- Kind of the `InstrInfo` record the analyzer logs for an opcode (a
summary of the `analyze.rs` match arms: `Select` and the conditional
branches and `If` log `Control`; every other record-producing arm logs
`Other`). -/
def opKindOf (op : Op) : OpKind :=
  match op with
  | .select | .brIf _ | .brTable | .brOnNull _ | .brOnNonNull _
  | .brOnCast _ | .brOnCastFail _ | .if_ _ => .Control
  | _ => .Other

/-- The opcodes the SPEC's claim calls `Control`: conditional branches, `If`,
and `Return` (claim C3's list; notably excluding `Select`). -/
def claimControlB (op : Op) : Bool :=
  match op with
  | .brIf _ | .brTable | .brOnNull _ | .brOnNonNull _ | .brOnCast _
  | .brOnCastFail _ | .if_ _ | .return_ => true
  | _ => false

/-- The opcodes whose analyzer record is `Control` (Boolean form of
`opKindOf`). -/
def codeControlB (op : Op) : Bool :=
  match op with
  | .brIf _ | .brTable | .brOnNull _ | .brOnNonNull _ | .brOnCast _
  | .brOnCastFail _ | .if_ _ | .select => true
  | _ => false

/-- The GC conditional branches the analyzer special-cases in its `Control`
arm (so they never reach `stack_effects`). -/
def specialCasedBranchB (op : Op) : Bool :=
  match op with
  | .brOnNull _ | .brOnNonNull _ | .brOnCast _ | .brOnCastFail _ => true
  | _ => false

/-- Instruction index referenced by an origin, restricted to the variants
enumerated by claim C6 (`Instr`, `Load`, `Call`, `CallIndirect`, `Global`,
`Param` — not `Const`). -/
def claimOriginIdx (o : Origin) : Option ℕ :=
  match o with
  | .instr i => some i
  | .load i => some i
  | .call _ i => some i
  | .callIndirect _ i => some i
  | .global i _ => some i
  | .param i _ => some i
  | .const _ => none
  | .untracked => none

/-- Boolean check of claim C6 on an analysis result: every origin of the
claim's variants appearing in the record at position `i` references a
strictly smaller instruction index. -/
def backwardRefsB (fs : FuncState) : Bool :=
  fs.instrs.enum.all (fun ii =>
    ii.2.inputs.all (fun o =>
      match claimOriginIdx o with
      | some j => decide (j < ii.1)
      | none => true))

/-- The strict-backward-reference invariant (over ALL index-carrying origin
variants, `Const` included). -/
def InfoBound (instrs : List InstrInfo) : Prop :=
  ∀ i info, instrs.get? i = some info →
    ∀ o ∈ info.inputs, ∀ j, Origin.idx? o = some j → j < i

/-- Every origin on a list references an index below `k`. -/
def StackBound (k : ℕ) (l : List Origin) : Prop :=
  ∀ o ∈ l, ∀ j, Origin.idx? o = some j → j < k

/-- The analyzer-run invariant at position `k`. -/
def AnalyzeInv (k : ℕ) (st : TaintState) : Prop :=
  st.instrs.length = k ∧ StackBound k st.stack ∧
    StackBound k st.local_origin ∧ InfoBound st.instrs

/-- Lexicographic order on compound `(entity, instr_idx)` keys, as the spec
prescribes for parameter emission. -/
def keyLeB (a b : ℕ × ℕ) : Bool :=
  a.1 < b.1 || (a.1 = b.1 && a.2 ≤ b.2)

/-- Insert into a sorted list (spec-side insertion sort helper). -/
def insLe {α : Type} (le : α → α → Bool) (a : α) : List α → List α
  | [] => [a]
  | b :: t => if le a b then a :: b :: t else b :: insLe le a t

/-- Sort a list ascending by `le` (spec-side insertion sort). -/
def sortLe {α : Type} (le : α → α → Bool) : List α → List α
  | [] => []
  | a :: t => insLe le a (sortLe le t)

/-- Defined from the SPEC's words, for the refinement comparison of claim C5
(not from the source): the probe parameter list the spec prescribes —
params, then globals, then loads, then calls, then call-indirects, each
map's entries sorted ascending by key (lexicographically for compound
keys). -/
def specParamOrder (s : Slice) : List DataType :=
  (sortLe (fun a b => keyLeB a.1 b.1) s.params).map (fun e => e.2) ++
  (sortLe (fun a b => keyLeB a.1 b.1) s.globals).map (fun e => e.2) ++
  (sortLe (fun a b => a.1 ≤ b.1) s.loads).map (fun e => e.2) ++
  (sortLe (fun a b => keyLeB a.1 b.1) s.calls).map (fun e => e.2) ++
  (sortLe (fun a b => keyLeB a.1 b.1) s.call_indirects).map (fun e => e.2)

/-- All five state maps of a slice have at most one entry (so every legal
`HashMap` iteration order coincides). -/
def Slice.smallMaps (s : Slice) : Prop :=
  s.params.length ≤ 1 ∧ s.globals.length ≤ 1 ∧ s.loads.length ≤ 1 ∧
    s.calls.length ≤ 1 ∧ s.call_indirects.length ≤ 1

instance (s : Slice) : Decidable s.smallMaps := by
  unfold Slice.smallMaps; infer_instance

/-! ## Concrete inputs used by the witnesses and counterexamples -/

/-- A module whose single function tests a sum of an `i32` and an `i64`
parameter: both parameters feed the `If` condition, so its function-level
slice has TWO entries in `params` (types i32 and i64). -/
def mTwoParams : ModuleInput :=
  ⟨⟨[⟨[.i32, .i64], []⟩], [0], []⟩,
   [(0, [.localGet 0, .localGet 1, .i32Add, .if_ .empty, .end_, .end_])]⟩

/-- A module whose single function is `local.get 0; if .. else .. end; end`:
the `If` (in the maximal slice) opens a block whose `Else`/`End` must be kept,
so the committed support set contains the `If`'s own index. -/
def mIfElse : ModuleInput :=
  ⟨⟨[⟨[.i32], []⟩], [0], []⟩,
   [(0, [.localGet 0, .if_ .empty, .nop, .else_, .nop, .end_, .end_])]⟩

/-- A single-parameter conditional, all of whose slice state maps have at
most one entry. -/
def mOneParam : ModuleInput :=
  ⟨⟨[⟨[.i32], []⟩], [0], []⟩,
   [(0, [.localGet 0, .if_ .empty, .end_, .end_])]⟩

/-- A no-param, no-result context with a single type. -/
def ctx0 : ModuleCtx := ⟨[⟨[], []⟩], [0], []⟩

/-- A body whose two leading `Return`s shift the `InstrInfo` log against the
body indices: the record at log position 2 (the `Drop`) receives input
`Origin.instr 3` (the `I32Eqz` at body index 3). -/
def bodyShifted : List Op :=
  [.return_, .return_, .i32Const 0, .i32Eqz, .drop, .end_]

/-- A body exercising `Select` (logged `Control`) and, separately below, a
body exercising `Return` (logged not at all). -/
def bodySelect : List Op :=
  [.i32Const 0, .i32Const 0, .i32Const 0, .select, .drop, .end_]

/-- The analysis result of `mOneParam`'s function (checked by `decide` at the
use sites). -/
def fsOneParam : FuncState :=
  ⟨0, 1, [⟨.Other, []⟩, ⟨.Control, [.param 0 0]⟩, ⟨.Other, []⟩, ⟨.Other, []⟩]⟩

/-- The slice results of `mOneParam` after structuralization (checked by
`decide` at the use sites). -/
def slOneParam : List SliceResult :=
  [⟨0, 1, [(0, ⟨0, 4, "", {0, 1}, ∅, {1, 2}, [((0, 0), .i32)],
    [], [], [], [], []⟩)]⟩]

/-- The analysis result of `bodySelect` under `ctx0`. -/
def fsSelect : FuncState :=
  ⟨0, 0, [⟨.Other, []⟩, ⟨.Other, []⟩, ⟨.Other, []⟩,
    ⟨.Control, [.const 0, .const 1, .const 2]⟩,
    ⟨.Other, [.instr 3]⟩, ⟨.Other, []⟩]⟩

/-- A trivial module every opcode of which is supported. -/
def mNop : ModuleInput := ⟨ctx0, [(0, [.nop, .end_])]⟩

/-- Every opcode of every function of the module is either modeled by the
stack-effects table, or is one of the GC conditional branches the analyzer
special-cases before consulting the table. -/
def SupportedIn (m : ModuleInput) : Prop :=
  ∀ fb ∈ m.funcs, ∀ op ∈ fb.2,
    unsupportedMnemonic op = none ∨ specialCasedBranchB op = true

/-! ## Helper lemmas -/

theorem sliceFuel_mono (info : List InstrInfo) (s s' : SliceSt)
    (hw : s'.worklist = s.worklist)
    (hi : s.included_instrs ⊆ s'.included_instrs) :
    sliceTraceFuel info s' ≤ sliceTraceFuel info s := by
  unfold sliceTraceFuel
  rw [hw]
  exact Nat.add_le_add_left
    (Finset.sum_le_sum_of_subset
      (Finset.sdiff_subset_sdiff (le_refl _) hi)) _

theorem range_sdiff_insert_of_lt {n i : ℕ} (incl : Finset ℕ) (h : i < n) :
    Finset.range n \ insert i incl = (Finset.range n \ incl).erase i := by
  ext j
  simp only [Finset.mem_sdiff, Finset.mem_insert, Finset.mem_erase,
    Finset.mem_range]
  constructor
  · rintro ⟨hj, hni⟩
    push_neg at hni
    exact ⟨hni.1, hj, hni.2⟩
  · rintro ⟨hne, hj, hnm⟩
    exact ⟨hj, by push_neg; exact ⟨hne, hnm⟩⟩

theorem range_sdiff_insert_of_ge {n i : ℕ} (incl : Finset ℕ) (h : ¬ i < n) :
    Finset.range n \ insert i incl = Finset.range n \ incl := by
  ext j
  simp only [Finset.mem_sdiff, Finset.mem_insert, Finset.mem_range]
  constructor
  · rintro ⟨hj, hni⟩
    push_neg at hni
    exact ⟨hj, hni.2⟩
  · rintro ⟨hj, hnm⟩
    refine ⟨hj, ?_⟩
    push_neg
    exact ⟨by rintro rfl; exact h hj, hnm⟩

theorem sliceDispatch_fuel (ctx : ModuleCtx) (ops : List Op)
    (fp : List DataType) (info : List InstrInfo) (o : Origin) (s s' : SliceSt)
    (h : sliceDispatch ctx ops fp info o s = .ok s') :
    sliceTraceFuel info s' ≤ sliceTraceFuel info s := by
  cases o with
  | instr i =>
    simp only [sliceDispatch] at h
    split at h
    · cases h; exact le_refl _
    · rename_i hni
      cases h
      by_cases hr : i < info.length
      · have hmem : i ∈ Finset.range info.length \ s.included_instrs := by
          simp [Finset.mem_sdiff, Finset.mem_range, hr, hni]
        have hsum := Finset.add_sum_erase _ (originEdges info) hmem
        have hlen : (((info.get? i).map (fun x => x.inputs)).getD []).length =
            ((info.get? i).map (fun x => x.inputs.length)).getD 0 := by
          cases info.get? i <;> simp
        unfold sliceTraceFuel
        simp only [List.length_append]
        rw [range_sdiff_insert_of_lt _ hr]
        have : originEdges info i =
            1 + (((info.get? i).map (fun x => x.inputs)).getD []).length := by
          rw [hlen]; rfl
        omega
      · have hnone : info.get? i = none := List.get?_eq_none.2 (by omega)
        unfold sliceTraceFuel
        simp only [hnone, List.length_append, Option.map_none', Option.getD_none,
          List.length_nil]
        rw [range_sdiff_insert_of_ge _ hr]
        omega
  | load i =>
    simp only [sliceDispatch] at h
    split at h
    · cases h
    · split at h
      · cases h
      · split at h
        · cases h
          exact sliceFuel_mono _ _ _ rfl (le_refl _)
        · cases h
          exact sliceFuel_mono _ _ _ rfl (Finset.subset_insert _ _)
  | call r i =>
    simp only [sliceDispatch] at h
    split at h
    · cases h
    · split at h
      · split at h
        · cases h
        · split at h
          · cases h
          · split at h
            · cases h
            · split at h
              · cases h
                exact sliceFuel_mono _ _ _ rfl (le_refl _)
              · cases h
                exact sliceFuel_mono _ _ _ rfl (Finset.subset_insert _ _)
      · cases h
  | callIndirect r i =>
    simp only [sliceDispatch] at h
    split at h
    · cases h
    · split at h
      · split at h
        · cases h
        · split at h
          · cases h
          · split at h
            · cases h
              exact sliceFuel_mono _ _ _ rfl (le_refl _)
            · cases h
              exact sliceFuel_mono _ _ _ rfl (Finset.subset_insert _ _)
      · cases h
  | global i g =>
    simp only [sliceDispatch] at h
    split at h
    · cases h
    · cases h
      exact sliceFuel_mono _ _ _ rfl (Finset.subset_insert _ _)
  | param i l =>
    simp only [sliceDispatch] at h
    split at h
    · cases h
    · cases h
      exact sliceFuel_mono _ _ _ rfl (Finset.subset_insert _ _)
  | const i => simp [sliceDispatch] at h
  | untracked =>
    simp only [sliceDispatch] at h
    cases h
    exact le_refl _

theorem sliceTrace_stable (ctx : ModuleCtx) (ops : List Op)
    (fp : List DataType) (info : List InstrInfo) :
    ∀ (fuel : ℕ) (s : SliceSt), sliceTraceFuel info s ≤ fuel →
      ∀ extra, sliceTrace ctx ops fp info (fuel + extra) s =
        sliceTrace ctx ops fp info fuel s := by
  intro fuel
  induction fuel with
  | zero =>
    intro s hs extra
    have hwl : s.worklist = [] := by
      have := hs
      unfold sliceTraceFuel at this
      have : s.worklist.length = 0 := by omega
      exact List.length_eq_zero.1 this
    cases extra with
    | zero => rfl
    | succ e => simp [sliceTrace, hwl]
  | succ n ih =>
    intro s hs extra
    have hrw : n + 1 + extra = (n + extra) + 1 := by omega
    rw [hrw]
    show sliceTrace ctx ops fp info ((n + extra) + 1) s =
      sliceTrace ctx ops fp info (n + 1) s
    cases hwl : s.worklist with
    | nil => simp [sliceTrace, hwl]
    | cons o rest =>
      simp only [sliceTrace, hwl]
      cases hd : sliceDispatch ctx ops fp info o { s with worklist := rest } with
      | error e => rfl
      | ok s' =>
        have hmid : sliceTraceFuel info { s with worklist := rest } + 1 =
            sliceTraceFuel info s := by
          unfold sliceTraceFuel
          simp [hwl]
          omega
        have hle : sliceTraceFuel info s' ≤ n := by
          have := sliceDispatch_fuel ctx ops fp info o _ _ hd
          omega
        exact ih s' hle extra

theorem sliceTrace_empties (ctx : ModuleCtx) (ops : List Op)
    (fp : List DataType) (info : List InstrInfo) :
    ∀ (fuel : ℕ) (s s' : SliceSt), sliceTraceFuel info s ≤ fuel →
      sliceTrace ctx ops fp info fuel s = .ok s' → s'.worklist = [] := by
  intro fuel
  induction fuel with
  | zero =>
    intro s s' hs h
    have hwl : s.worklist = [] := by
      unfold sliceTraceFuel at hs
      exact List.length_eq_zero.1 (by omega)
    cases h
    exact hwl
  | succ n ih =>
    intro s s' hs h
    cases hwl : s.worklist with
    | nil =>
      simp only [sliceTrace, hwl] at h
      cases h
      exact hwl
    | cons o rest =>
      simp only [sliceTrace, hwl] at h
      cases hd : sliceDispatch ctx ops fp info o { s with worklist := rest } with
      | error e => rw [hd] at h; cases h
      | ok s'' =>
        rw [hd] at h
        have hmid : sliceTraceFuel info { s with worklist := rest } + 1 =
            sliceTraceFuel info s := by
          unfold sliceTraceFuel
          simp [hwl]
          omega
        have hle : sliceTraceFuel info s'' ≤ n := by
          have := sliceDispatch_fuel ctx ops fp info o _ _ hd
          omega
        exact ih s'' s' hle h

theorem except_bind_ok {ε α β : Type} (a : α) (f : α → Except ε β) :
    (Except.ok a >>= f : Except ε β) = f a := rfl

theorem except_bind_error {ε α β : Type} (e : ε) (f : α → Except ε β) :
    (Except.error e >>= f : Except ε β) = Except.error e := rfl

theorem except_pure_eq {ε α : Type} (a : α) :
    (pure a : Except ε α) = Except.ok a := rfl

theorem analyzeStep_spec (ctx : ModuleCtx) (ft : FuncTy) (k : ℕ) (op : Op)
    (st st' : TaintState) (h : analyzeStep ctx ft k op st = .ok st') :
    (op = .return_ ∧ st'.instrs = st.instrs ∧
      (∀ o ∈ st'.stack, o ∈ st.stack) ∧ st'.local_origin = st.local_origin) ∨
    (op ≠ .return_ ∧ ∃ inputs,
      st'.instrs = st.instrs ++ [⟨opKindOf op, inputs⟩] ∧
      (∀ o ∈ inputs, o ∈ st.stack) ∧
      (∀ o ∈ st'.stack, o ∈ st.stack ∨ o ∈ st.local_origin ∨
        (∀ j, Origin.idx? o = some j → j = k)) ∧
      (∀ o ∈ st'.local_origin, o ∈ st.local_origin ∨ o ∈ st.stack)) := by
  cases op with
  | i32Const v =>
    simp only [analyzeStep, Except.ok.injEq] at h
    subst h
    refine .inr ⟨by simp, [], rfl, by simp, ?_, fun o ho => .inl ho⟩
    intro o ho
    simp only [List.mem_cons] at ho
    rcases ho with rfl | ho
    · exact .inr (.inr (by simp [Origin.idx?]))
    · exact .inl ho
  | i64Const v =>
    simp only [analyzeStep, Except.ok.injEq] at h
    subst h
    refine .inr ⟨by simp, [], rfl, by simp, ?_, fun o ho => .inl ho⟩
    intro o ho
    simp only [List.mem_cons] at ho
    rcases ho with rfl | ho
    · exact .inr (.inr (by simp [Origin.idx?]))
    · exact .inl ho
  | localGet lid =>
    simp only [analyzeStep, Except.ok.injEq] at h
    subst h
    refine .inr ⟨by simp, [], rfl, by simp, ?_, fun o ho => .inl ho⟩
    intro o ho
    simp only [List.mem_cons] at ho
    rcases ho with rfl | ho
    · cases hg : st.local_origin.get? lid with
      | some o' =>
        simp only [hg]
        exact .inr (.inl (List.get?_mem hg))
      | none =>
        simp only [hg]
        split
        · exact .inr (.inr (by simp [Origin.idx?]))
        · exact .inr (.inr (by simp [Origin.idx?]))
    · exact .inl ho
  | localSet lid =>
    cases hs : st.stack with
    | nil => simp [analyzeStep, popE, hs, except_bind_error] at h
    | cons v rest =>
      simp only [analyzeStep, popE, hs, except_bind_ok] at h
      split at h
      · simp only [Except.ok.injEq] at h
        subst h
        refine .inr ⟨by simp, [v], rfl, by simp [hs], ?_, ?_⟩
        · intro o ho
          exact .inl (by simp [hs]; exact .inr ho)
        · intro o ho
          rcases List.mem_or_eq_of_mem_set ho with ho | rfl
          · exact .inl ho
          · exact .inr (by simp [hs])
      · cases h
  | localTee lid =>
    cases hs : st.stack with
    | nil => simp [analyzeStep, popE, hs, except_bind_error] at h
    | cons v rest =>
      simp only [analyzeStep, popE, hs, except_bind_ok] at h
      split at h
      · simp only [Except.ok.injEq] at h
        subst h
        refine .inr ⟨by simp, [v], rfl, by simp [hs], ?_, ?_⟩
        · intro o ho
          simp only [List.mem_cons] at ho
          rcases ho with rfl | ho
          · exact .inl (by simp [hs])
          · exact .inl (by simp [hs, ho])
        · intro o ho
          rcases List.mem_or_eq_of_mem_set ho with ho | rfl
          · exact .inl ho
          · exact .inr (by simp [hs])
      · cases h
  | globalGet gid =>
    simp only [analyzeStep, Except.ok.injEq] at h
    subst h
    refine .inr ⟨by simp, [], rfl, by simp, ?_, fun o ho => .inl ho⟩
    intro o ho
    simp only [List.mem_cons] at ho
    rcases ho with rfl | ho
    · exact .inr (.inr (by simp [Origin.idx?]))
    · exact .inl ho
  | globalSet gid =>
    cases hs : st.stack with
    | nil => simp [analyzeStep, popE, hs, except_bind_error] at h
    | cons v rest =>
      simp only [analyzeStep, popE, hs, except_bind_ok, Except.ok.injEq] at h
      subst h
      refine .inr ⟨by simp, [v], rfl, by simp [hs], ?_, fun o ho => .inl ho⟩
      intro o ho
      exact .inl (by simp [hs]; exact .inr ho)
  | i32Load =>
    cases hs : st.stack with
    | nil => simp [analyzeStep, popE, hs, except_bind_error] at h
    | cons v rest =>
      simp only [analyzeStep, popE, hs, except_bind_ok, Except.ok.injEq] at h
      subst h
      refine .inr ⟨by simp, [v], rfl, by simp [hs], ?_, fun o ho => .inl ho⟩
      intro o ho
      simp only [List.mem_cons] at ho
      rcases ho with rfl | ho
      · exact .inr (.inr (by simp [Origin.idx?]))
      · exact .inl (by simp [hs, ho])
  | i64Load =>
    cases hs : st.stack with
    | nil => simp [analyzeStep, popE, hs, except_bind_error] at h
    | cons v rest =>
      simp only [analyzeStep, popE, hs, except_bind_ok, Except.ok.injEq] at h
      subst h
      refine .inr ⟨by simp, [v], rfl, by simp [hs], ?_, fun o ho => .inl ho⟩
      intro o ho
      simp only [List.mem_cons] at ho
      rcases ho with rfl | ho
      · exact .inr (.inr (by simp [Origin.idx?]))
      · exact .inl (by simp [hs, ho])
  | i32Store =>
    cases hs : st.stack with
    | nil => simp [analyzeStep, popE, hs, except_bind_error] at h
    | cons v rest1 =>
      cases hr : rest1 with
      | nil => simp [analyzeStep, popE, hs, hr, except_bind_error, except_bind_ok] at h
      | cons w rest =>
        simp only [analyzeStep, popE, hs, hr, except_bind_ok, Except.ok.injEq] at h
        subst h
        refine .inr ⟨by simp, [w, v], rfl, by simp [hs, hr], ?_, fun o ho => .inl ho⟩
        intro o ho
        exact .inl (by simp [hs, hr]; exact .inr (.inr ho))
  | i32Add =>
    cases hs : st.stack with
    | nil => simp [analyzeStep, popE, hs, except_bind_error] at h
    | cons v rest1 =>
      cases hr : rest1 with
      | nil => simp [analyzeStep, popE, hs, hr, except_bind_error, except_bind_ok] at h
      | cons w rest =>
        simp only [analyzeStep, popE, hs, hr, except_bind_ok, Except.ok.injEq] at h
        subst h
        refine .inr ⟨by simp, [w, v], rfl, by simp [hs, hr], ?_, fun o ho => .inl ho⟩
        intro o ho
        simp only [List.mem_cons] at ho
        rcases ho with rfl | ho
        · exact .inr (.inr (by simp [Origin.idx?]))
        · exact .inl (by simp [hs, hr, ho])
  | i64Add =>
    cases hs : st.stack with
    | nil => simp [analyzeStep, popE, hs, except_bind_error] at h
    | cons v rest1 =>
      cases hr : rest1 with
      | nil => simp [analyzeStep, popE, hs, hr, except_bind_error, except_bind_ok] at h
      | cons w rest =>
        simp only [analyzeStep, popE, hs, hr, except_bind_ok, Except.ok.injEq] at h
        subst h
        refine .inr ⟨by simp, [w, v], rfl, by simp [hs, hr], ?_, fun o ho => .inl ho⟩
        intro o ho
        simp only [List.mem_cons] at ho
        rcases ho with rfl | ho
        · exact .inr (.inr (by simp [Origin.idx?]))
        · exact .inl (by simp [hs, hr, ho])
  | i32Eqz =>
    cases hs : st.stack with
    | nil => simp [analyzeStep, popE, hs, except_bind_error] at h
    | cons v rest =>
      simp only [analyzeStep, popE, hs, except_bind_ok, Except.ok.injEq] at h
      subst h
      refine .inr ⟨by simp, [v], rfl, by simp [hs], ?_, fun o ho => .inl ho⟩
      intro o ho
      simp only [List.mem_cons] at ho
      rcases ho with rfl | ho
      · exact .inr (.inr (by simp [Origin.idx?]))
      · exact .inl (by simp [hs, ho])
  | select =>
    cases hs : st.stack with
    | nil => simp [analyzeStep, popE, hs, except_bind_error] at h
    | cons c rest1 =>
      cases hr : rest1 with
      | nil => simp [analyzeStep, popE, hs, hr, except_bind_error, except_bind_ok] at h
      | cons v2 rest2 =>
        cases hr2 : rest2 with
        | nil => simp [analyzeStep, popE, hs, hr, hr2, except_bind_error, except_bind_ok] at h
        | cons v1 rest =>
          simp only [analyzeStep, popE, hs, hr, hr2, except_bind_ok, Except.ok.injEq] at h
          subst h
          refine .inr ⟨by simp, [v1, v2, c], rfl,
            by simp [hs, hr, hr2], ?_, fun o ho => .inl ho⟩
          intro o ho
          simp only [List.mem_cons] at ho
          rcases ho with rfl | ho
          · exact .inr (.inr (by simp [Origin.idx?]))
          · exact .inl (by simp [hs, hr, hr2, ho])
  | brIf d =>
    cases hs : st.stack with
    | nil => simp [analyzeStep, popE, hs, except_bind_error] at h
    | cons v rest =>
      simp only [analyzeStep, popE, hs, except_bind_ok, Except.ok.injEq] at h
      subst h
      refine .inr ⟨by simp, [v], rfl, by simp [hs], ?_, fun o ho => .inl ho⟩
      intro o ho
      exact .inl (by simp [hs]; exact .inr ho)
  | brTable =>
    cases hs : st.stack with
    | nil => simp [analyzeStep, popE, hs, except_bind_error] at h
    | cons v rest =>
      simp only [analyzeStep, popE, hs, except_bind_ok, Except.ok.injEq] at h
      subst h
      refine .inr ⟨by simp, [v], rfl, by simp [hs], ?_, fun o ho => .inl ho⟩
      intro o ho
      exact .inl (by simp [hs]; exact .inr ho)
  | brOnNull d =>
    cases hs : st.stack with
    | nil => simp [analyzeStep, popE, hs, except_bind_error] at h
    | cons v rest =>
      simp only [analyzeStep, popE, hs, except_bind_ok, Except.ok.injEq] at h
      subst h
      refine .inr ⟨by simp, [v], rfl, by simp [hs], ?_, fun o ho => .inl ho⟩
      intro o ho
      exact .inl (by simp [hs]; exact .inr ho)
  | brOnNonNull d =>
    cases hs : st.stack with
    | nil => simp [analyzeStep, popE, hs, except_bind_error] at h
    | cons v rest =>
      simp only [analyzeStep, popE, hs, except_bind_ok, Except.ok.injEq] at h
      subst h
      refine .inr ⟨by simp, [v], rfl, by simp [hs], ?_, fun o ho => .inl ho⟩
      intro o ho
      exact .inl (by simp [hs]; exact .inr ho)
  | brOnCast d =>
    cases hs : st.stack with
    | nil => simp [analyzeStep, popE, hs, except_bind_error] at h
    | cons v rest =>
      simp only [analyzeStep, popE, hs, except_bind_ok, Except.ok.injEq] at h
      subst h
      refine .inr ⟨by simp, [v], rfl, by simp [hs], ?_, fun o ho => .inl ho⟩
      intro o ho
      exact .inl (by simp [hs]; exact .inr ho)
  | brOnCastFail d =>
    cases hs : st.stack with
    | nil => simp [analyzeStep, popE, hs, except_bind_error] at h
    | cons v rest =>
      simp only [analyzeStep, popE, hs, except_bind_ok, Except.ok.injEq] at h
      subst h
      refine .inr ⟨by simp, [v], rfl, by simp [hs], ?_, fun o ho => .inl ho⟩
      intro o ho
      exact .inl (by simp [hs]; exact .inr ho)
  | if_ bt =>
    cases hs : st.stack with
    | nil => simp [analyzeStep, popE, hs, except_bind_error] at h
    | cons v rest =>
      simp only [analyzeStep, popE, hs, except_bind_ok, Except.ok.injEq] at h
      subst h
      refine .inr ⟨by simp, [v], rfl, by simp [hs], ?_, fun o ho => .inl ho⟩
      intro o ho
      exact .inl (by simp [hs]; exact .inr ho)
  | call f =>
    simp only [analyzeStep] at h
    split at h
    · simp at h
    · split at h
      · simp at h
      · simp only [popN] at h
        split at h
        · simp only [except_bind_ok, Except.ok.injEq] at h
          subst h
          refine .inr ⟨by simp, _, rfl, ?_, ?_, fun o ho => .inl ho⟩
          · intro o ho
            exact List.take_subset _ _ (List.mem_reverse.1 ho)
          · intro o ho
            rcases List.mem_append.1 ho with ho | ho
            · rcases List.mem_reverse.1 ho |> List.mem_map.1 with ⟨i, _, rfl⟩
              exact .inr (.inr (by simp [Origin.idx?]))
            · exact .inl (List.drop_subset _ _ ho)
        · simp [except_bind_error] at h
  | callIndirect t =>
    simp only [analyzeStep] at h
    split at h
    · simp at h
    · simp only [popN] at h
      split at h
      · simp only [except_bind_ok, Except.ok.injEq] at h
        subst h
        refine .inr ⟨by simp, _, rfl, ?_, ?_, fun o ho => .inl ho⟩
        · intro o ho
          exact List.take_subset _ _ (List.mem_reverse.1 ho)
        · intro o ho
          rcases List.mem_append.1 ho with ho | ho
          · rcases List.mem_reverse.1 ho |> List.mem_map.1 with ⟨i, _, rfl⟩
            exact .inr (.inr (by simp [Origin.idx?]))
          · exact .inl (List.drop_subset _ _ ho)
      · simp [except_bind_error] at h
  | block bt =>
    cases he : stack_effects (.block bt) ctx with
    | error e => simp [analyzeStep, he, except_bind_error] at h
    | ok eff =>
      simp only [analyzeStep, he, except_bind_ok, popN] at h
      split at h
      · simp only [except_bind_ok, Except.ok.injEq] at h
        subst h
        refine .inr ⟨by simp, _, rfl, ?_, ?_, fun o ho => .inl ho⟩
        · intro o ho
          exact List.take_subset _ _ (List.mem_reverse.1 ho)
        · intro o ho
          rcases List.mem_append.1 ho with ho | ho
          · have := List.eq_of_mem_replicate ho
            subst this
            exact .inr (.inr (by simp [Origin.idx?]))
          · exact .inl (List.drop_subset _ _ ho)
      · simp [except_bind_error] at h
  | loop bt =>
    cases he : stack_effects (.loop bt) ctx with
    | error e => simp [analyzeStep, he, except_bind_error] at h
    | ok eff =>
      simp only [analyzeStep, he, except_bind_ok, popN] at h
      split at h
      · simp only [except_bind_ok, Except.ok.injEq] at h
        subst h
        refine .inr ⟨by simp, _, rfl, ?_, ?_, fun o ho => .inl ho⟩
        · intro o ho
          exact List.take_subset _ _ (List.mem_reverse.1 ho)
        · intro o ho
          rcases List.mem_append.1 ho with ho | ho
          · have := List.eq_of_mem_replicate ho
            subst this
            exact .inr (.inr (by simp [Origin.idx?]))
          · exact .inl (List.drop_subset _ _ ho)
      · simp [except_bind_error] at h
  | else_ =>
    cases he : stack_effects (.else_) ctx with
    | error e => simp [analyzeStep, he, except_bind_error] at h
    | ok eff =>
      simp only [analyzeStep, he, except_bind_ok, popN] at h
      split at h
      · simp only [except_bind_ok, Except.ok.injEq] at h
        subst h
        refine .inr ⟨by simp, _, rfl, ?_, ?_, fun o ho => .inl ho⟩
        · intro o ho
          exact List.take_subset _ _ (List.mem_reverse.1 ho)
        · intro o ho
          rcases List.mem_append.1 ho with ho | ho
          · have := List.eq_of_mem_replicate ho
            subst this
            exact .inr (.inr (by simp [Origin.idx?]))
          · exact .inl (List.drop_subset _ _ ho)
      · simp [except_bind_error] at h
  | end_ =>
    cases he : stack_effects (.end_) ctx with
    | error e => simp [analyzeStep, he, except_bind_error] at h
    | ok eff =>
      simp only [analyzeStep, he, except_bind_ok, popN] at h
      split at h
      · simp only [except_bind_ok, Except.ok.injEq] at h
        subst h
        refine .inr ⟨by simp, _, rfl, ?_, ?_, fun o ho => .inl ho⟩
        · intro o ho
          exact List.take_subset _ _ (List.mem_reverse.1 ho)
        · intro o ho
          rcases List.mem_append.1 ho with ho | ho
          · have := List.eq_of_mem_replicate ho
            subst this
            exact .inr (.inr (by simp [Origin.idx?]))
          · exact .inl (List.drop_subset _ _ ho)
      · simp [except_bind_error] at h
  | br d =>
    cases he : stack_effects (.br d) ctx with
    | error e => simp [analyzeStep, he, except_bind_error] at h
    | ok eff =>
      simp only [analyzeStep, he, except_bind_ok, popN] at h
      split at h
      · simp only [except_bind_ok, Except.ok.injEq] at h
        subst h
        refine .inr ⟨by simp, _, rfl, ?_, ?_, fun o ho => .inl ho⟩
        · intro o ho
          exact List.take_subset _ _ (List.mem_reverse.1 ho)
        · intro o ho
          rcases List.mem_append.1 ho with ho | ho
          · have := List.eq_of_mem_replicate ho
            subst this
            exact .inr (.inr (by simp [Origin.idx?]))
          · exact .inl (List.drop_subset _ _ ho)
      · simp [except_bind_error] at h
  | drop =>
    cases he : stack_effects (.drop) ctx with
    | error e => simp [analyzeStep, he, except_bind_error] at h
    | ok eff =>
      simp only [analyzeStep, he, except_bind_ok, popN] at h
      split at h
      · simp only [except_bind_ok, Except.ok.injEq] at h
        subst h
        refine .inr ⟨by simp, _, rfl, ?_, ?_, fun o ho => .inl ho⟩
        · intro o ho
          exact List.take_subset _ _ (List.mem_reverse.1 ho)
        · intro o ho
          rcases List.mem_append.1 ho with ho | ho
          · have := List.eq_of_mem_replicate ho
            subst this
            exact .inr (.inr (by simp [Origin.idx?]))
          · exact .inl (List.drop_subset _ _ ho)
      · simp [except_bind_error] at h
  | nop =>
    cases he : stack_effects (.nop) ctx with
    | error e => simp [analyzeStep, he, except_bind_error] at h
    | ok eff =>
      simp only [analyzeStep, he, except_bind_ok, popN] at h
      split at h
      · simp only [except_bind_ok, Except.ok.injEq] at h
        subst h
        refine .inr ⟨by simp, _, rfl, ?_, ?_, fun o ho => .inl ho⟩
        · intro o ho
          exact List.take_subset _ _ (List.mem_reverse.1 ho)
        · intro o ho
          rcases List.mem_append.1 ho with ho | ho
          · have := List.eq_of_mem_replicate ho
            subst this
            exact .inr (.inr (by simp [Origin.idx?]))
          · exact .inl (List.drop_subset _ _ ho)
      · simp [except_bind_error] at h
  | unreachable =>
    cases he : stack_effects (.unreachable) ctx with
    | error e => simp [analyzeStep, he, except_bind_error] at h
    | ok eff =>
      simp only [analyzeStep, he, except_bind_ok, popN] at h
      split at h
      · simp only [except_bind_ok, Except.ok.injEq] at h
        subst h
        refine .inr ⟨by simp, _, rfl, ?_, ?_, fun o ho => .inl ho⟩
        · intro o ho
          exact List.take_subset _ _ (List.mem_reverse.1 ho)
        · intro o ho
          rcases List.mem_append.1 ho with ho | ho
          · have := List.eq_of_mem_replicate ho
            subst this
            exact .inr (.inr (by simp [Origin.idx?]))
          · exact .inl (List.drop_subset _ _ ho)
      · simp [except_bind_error] at h
  | refIsNull => simp [analyzeStep, stack_effects, except_bind_error] at h
  | tableGet t => simp [analyzeStep, stack_effects, except_bind_error] at h
  | return_ =>
    simp only [analyzeStep, Except.ok.injEq] at h
    subst h
    exact .inl ⟨rfl, rfl, fun o ho => List.drop_subset _ _ ho, rfl⟩

theorem step_supported (ctx : ModuleCtx) (ft : FuncTy) (k : ℕ) (op : Op)
    (st st' : TaintState) (h : analyzeStep ctx ft k op st = .ok st') :
    unsupportedMnemonic op = none ∨ specialCasedBranchB op = true := by
  cases op
  case brOnNull => exact .inr rfl
  case brOnNonNull => exact .inr rfl
  case brOnCast => exact .inr rfl
  case brOnCastFail => exact .inr rfl
  case refIsNull => simp [analyzeStep, stack_effects, except_bind_error] at h
  case tableGet => simp [analyzeStep, stack_effects, except_bind_error] at h
  all_goals exact .inl rfl

theorem InfoBound.append {xs : List InstrInfo} {inputs : List Origin}
    {kind : OpKind} (h : InfoBound xs)
    (hb : ∀ o ∈ inputs, ∀ j, Origin.idx? o = some j → j < xs.length) :
    InfoBound (xs ++ [⟨kind, inputs⟩]) := by
  intro i info hi o ho j hj
  rcases lt_trichotomy i xs.length with h1 | h1 | h1
  · rw [List.get?_append h1] at hi
    exact h _ _ hi o ho j hj
  · subst h1
    rw [List.get?_concat_length] at hi
    cases hi
    exact hb o ho j hj
  · exfalso
    have : (xs ++ [(⟨kind, inputs⟩ : InstrInfo)]).get? i = none := by
      rw [List.get?_eq_none]
      simp
      omega
    rw [this] at hi
    cases hi

theorem analyzeInv_step {ctx : ModuleCtx} {ft : FuncTy} {k : ℕ} {op : Op}
    {st st' : TaintState} (h : analyzeStep ctx ft k op st = .ok st')
    (hret : op ≠ .return_) (hinv : AnalyzeInv k st) : AnalyzeInv (k + 1) st' := by
  obtain ⟨hlen, hsb, hlb, hib⟩ := hinv
  rcases analyzeStep_spec ctx ft k op st st' h with ⟨heq, _⟩ | ⟨_, inputs, hinstr, hin, hstk, hlo⟩
  · exact absurd heq hret
  · refine ⟨by simp [hinstr, hlen], ?_, ?_, ?_⟩
    · intro o ho j hj
      rcases hstk o ho with hmem | hmem | hk
      · exact lt_trans (hsb o hmem j hj) (by omega)
      · exact lt_trans (hlb o hmem j hj) (by omega)
      · rw [hk j hj]; omega
    · intro o ho j hj
      rcases hlo o ho with hmem | hmem
      · exact lt_trans (hlb o hmem j hj) (by omega)
      · exact lt_trans (hsb o hmem j hj) (by omega)
    · rw [hinstr]
      exact InfoBound.append hib (fun o ho j hj => by
        rw [hlen]
        exact hsb o (hin o ho) j hj)

theorem analyzeGo_inv {ctx : ModuleCtx} {ft : FuncTy} :
    ∀ (ops : List Op) (k : ℕ) (st st' : TaintState),
      analyzeGo ctx ft k st ops = .ok st' → (∀ op ∈ ops, op ≠ .return_) →
      AnalyzeInv k st → AnalyzeInv (k + ops.length) st' := by
  intro ops
  induction ops with
  | nil =>
    intro k st st' h _ hinv
    simp only [analyzeGo, Except.ok.injEq] at h
    subst h
    simpa using hinv
  | cons op rest ih =>
    intro k st st' h hret hinv
    simp only [analyzeGo] at h
    cases hstep : analyzeStep ctx ft k op st with
    | error e => rw [hstep] at h; simp [except_bind_error] at h
    | ok st1 =>
      rw [hstep, except_bind_ok] at h
      have hinv1 := analyzeInv_step hstep (hret op (by simp)) hinv
      have := ih (k + 1) st1 st' h (fun o ho => hret o (by simp [ho])) hinv1
      simpa [Nat.add_comm, Nat.add_assoc, Nat.add_left_comm] using this

theorem analyzeFunc_shape {ctx : ModuleCtx} {fid : ℕ} {body : List Op}
    {fs : FuncState} (h : analyzeFunc ctx fid body = .ok fs) :
    ∃ ft st, analyzeGo ctx ft 0 ⟨[], [], []⟩ body = .ok st ∧
      fs.instrs = st.instrs := by
  unfold analyzeFunc at h
  split at h
  · simp at h
  · split at h
    · simp at h
    · rename_i ft hft
      cases hgo : analyzeGo ctx ft 0 ⟨[], [], []⟩ body with
      | error e => rw [hgo] at h; simp [except_bind_error] at h
      | ok st =>
        rw [hgo, except_bind_ok] at h
        split at h
        · simp only [Except.ok.injEq] at h
          exact ⟨ft, st, hgo, by rw [← h]⟩
        · simp at h

theorem analyzeGo_kinds {ctx : ModuleCtx} {ft : FuncTy} :
    ∀ (ops : List Op) (k : ℕ) (st st' : TaintState),
      analyzeGo ctx ft k st ops = .ok st' →
      st'.instrs.map (fun i => i.kind) =
        st.instrs.map (fun i => i.kind) ++
          (ops.filter (fun o => o != .return_)).map opKindOf := by
  intro ops
  induction ops with
  | nil =>
    intro k st st' h
    simp only [analyzeGo, Except.ok.injEq] at h
    subst h
    simp
  | cons op rest ih =>
    intro k st st' h
    simp only [analyzeGo] at h
    cases hstep : analyzeStep ctx ft k op st with
    | error e => rw [hstep] at h; simp [except_bind_error] at h
    | ok st1 =>
      rw [hstep, except_bind_ok] at h
      have htail := ih (k + 1) st1 st' h
      rcases analyzeStep_spec ctx ft k op st st1 hstep with
        ⟨heq, hinstr, _, _⟩ | ⟨hne, inputs, hinstr, _, _, _⟩
      · subst heq
        rw [htail, hinstr]
        simp
      · rw [htail, hinstr]
        have : (op != Op.return_) = true := by
          simp [hne]
        simp [this]

theorem analyzeGo_supported {ctx : ModuleCtx} {ft : FuncTy} :
    ∀ (ops : List Op) (k : ℕ) (st st' : TaintState),
      analyzeGo ctx ft k st ops = .ok st' →
      ∀ op ∈ ops, unsupportedMnemonic op = none ∨ specialCasedBranchB op = true := by
  intro ops
  induction ops with
  | nil => intro k st st' _ op hop; cases hop
  | cons op rest ih =>
    intro k st st' h op' hop'
    simp only [analyzeGo] at h
    cases hstep : analyzeStep ctx ft k op st with
    | error e => rw [hstep] at h; simp [except_bind_error] at h
    | ok st1 =>
      rw [hstep, except_bind_ok] at h
      rcases List.mem_cons.1 hop' with rfl | hop'
      · exact step_supported ctx ft k op' st st1 hstep
      · exact ih (k + 1) st1 st' h op' hop'

theorem except_mapM_ok_mem {α β : Type} {f : α → Except String β} :
    ∀ {l : List α} {acc : List β} {r : List β},
      List.mapM.loop f l acc = .ok r → ∀ a ∈ l, ∃ b, f a = .ok b := by
  intro l
  induction l with
  | nil => intro acc r _ a ha; cases ha
  | cons x xs ih =>
    intro acc r h a ha
    simp only [List.mapM.loop] at h
    cases hf : f x with
    | error e => rw [hf] at h; simp [except_bind_error] at h
    | ok b =>
      rw [hf, except_bind_ok] at h
      rcases List.mem_cons.1 ha with rfl | ha
      · exact ⟨b, hf⟩
      · exact ih h a ha

theorem except_mapM_congr {α β : Type} {f g : α → Except String β} :
    ∀ {l : List α} {acc : List β},
      (∀ a ∈ l, f a = g a) →
      List.mapM.loop f l acc = List.mapM.loop g l acc := by
  intro l
  induction l with
  | nil => intro acc _; rfl
  | cons x xs ih =>
    intro acc h
    simp only [List.mapM.loop]
    rw [h x (by simp)]
    cases g x with
    | error e => simp [except_bind_error]
    | ok b =>
      simp only [except_bind_ok]
      exact ih (fun a ha => h a (by simp [ha]))

theorem perm_eq_of_len_le_one {α : Type} {l₁ l₂ l : List α}
    (h₁ : l₁.Perm l) (h₂ : l₂.Perm l) (hl : l.length ≤ 1) : l₁ = l₂ := by
  cases l with
  | nil => rw [List.perm_nil.1 h₁, List.perm_nil.1 h₂]
  | cons a t =>
    cases t with
    | nil => rw [List.perm_singleton.1 h₁, List.perm_singleton.1 h₂]
    | cons b t2 => simp at hl

theorem assocGet_mem {κ β : Type} [DecidableEq κ] :
    ∀ {l : List (κ × β)} {k : κ} {v : β}, assocGet l k = some v → (k, v) ∈ l := by
  intro l
  induction l with
  | nil => intro k v h; cases h
  | cons e rest ih =>
    intro k v h
    simp only [assocGet] at h
    split at h
    · rename_i heq
      cases h
      subst heq
      exact List.mem_cons_self _ _
    · exact List.mem_cons_of_mem _ (ih h)

theorem filterMap_congr_mem {α β : Type} {f g : α → Option β} :
    ∀ {l : List α}, (∀ a ∈ l, f a = g a) → l.filterMap f = l.filterMap g := by
  intro l
  induction l with
  | nil => intro _; rfl
  | cons x xs ih =>
    intro h
    simp only [List.filterMap_cons]
    rw [h x (by simp)]
    cases g x with
    | none => exact ih (fun a ha => h a (by simp [ha]))
    | some b => rw [ih (fun a ha => h a (by simp [ha]))]

theorem applyOracle_congr {o₁ o₂ : OrderOracle} (h₁ : o₁.Lawful)
    (h₂ : o₂.Lawful) {s : Slice} (hs : s.smallMaps) :
    applyOracle o₁ s = applyOracle o₂ s := by
  obtain ⟨hp, hg, hl, hc, hci⟩ := hs
  unfold applyOracle
  congr 1
  · exact perm_eq_of_len_le_one (h₁.1 _) (h₂.1 _) hp
  · exact perm_eq_of_len_le_one (h₁.1 _) (h₂.1 _) hg
  · exact perm_eq_of_len_le_one (h₁.2 _) (h₂.2 _) hl
  · exact perm_eq_of_len_le_one (h₁.1 _) (h₂.1 _) hc
  · exact perm_eq_of_len_le_one (h₁.1 _) (h₂.1 _) hci

theorem gen_from_slices_congr {o₁ o₂ : OrderOracle} (h₁ : o₁.Lawful)
    (h₂ : o₂.Lawful) (ty : CompType) (fid : ℕ) (body : List Op)
    (fs : SliceResult) (hs : ∀ ks ∈ fs.slices, Slice.smallMaps ks.2) :
    gen_from_slices o₁ ty fid body fs = gen_from_slices o₂ ty fid body fs := by
  unfold gen_from_slices
  apply filterMap_congr_mem
  intro i _
  cases hget : assocGet fs.slices i with
  | none => rfl
  | some sl =>
    have hmem := assocGet_mem hget
    simp only [Option.map_some']
    rw [show applyOracle o₁ sl = applyOracle o₂ sl from
      applyOracle_congr h₁ h₂ (hs (i, sl) hmem)]

theorem codegen_congr {o₁ o₂ : OrderOracle} (h₁ : o₁.Lawful) (h₂ : o₂.Lawful)
    (ty : CompType) (m : ModuleInput) (slices : List SliceResult)
    (funcs : List FuncState)
    (hsmall : ∀ r ∈ slices, ∀ ks ∈ r.slices, Slice.smallMaps ks.2) :
    codegen o₁ ty m slices funcs = codegen o₂ ty m slices funcs := by
  unfold codegen
  show List.mapM _ _ = List.mapM _ _
  unfold List.mapM
  apply except_mapM_congr
  intro sf hsf
  obtain ⟨r, f⟩ := sf
  have hr : r ∈ slices := (List.mem_zip hsf).1
  cases hget : assocGet m.funcs f.fid with
  | none => rfl
  | some body =>
    simp only
    rw [gen_from_slices_congr h₁ h₂ ty f.fid body r (fun ks hks => hsmall r hr ks hks)]

theorem pns_foldl {κ : Type} [DecidableEq κ] :
    ∀ (l : List (κ × DataType)) (acc : List (κ × ℕ) × List DataType),
      (List.foldl
        (fun (acc : List (κ × ℕ) × List DataType) e =>
          ((hmInsert acc.1 e.1 acc.2.length).1, acc.2 ++ [e.2])) acc l).2 =
        acc.2 ++ l.map (fun e => e.2) := by
  intro l
  induction l with
  | nil => intro acc; simp
  | cons e t ih =>
    intro acc
    simp only [List.foldl_cons, List.map_cons]
    rw [ih]
    simp

theorem pnc_foldl :
    ∀ (l : List ((ℕ × ℕ) × DataType)) (acc : List (ℕ × CallState) × List DataType),
      (List.foldl
        (fun (acc : List (ℕ × CallState) × List DataType) e =>
          ((hmInsert acc.1 e.1.1 ⟨e.1.2, acc.2.length⟩).1, acc.2 ++ [e.2])) acc l).2 =
        acc.2 ++ l.map (fun e => e.2) := by
  intro l
  induction l with
  | nil => intro acc; simp
  | cons e t ih =>
    intro acc
    simp only [List.foldl_cons, List.map_cons]
    rw [ih]
    simp

theorem process_needed_state_snd {κ : Type} [DecidableEq κ]
    (l : List (κ × DataType)) (used : List DataType) :
    (process_needed_state l used).2 = used ++ l.map (fun e => e.2) :=
  pns_foldl l ([], used)

theorem process_needed_call_snd (l : List ((ℕ × ℕ) × DataType))
    (used : List DataType) :
    (process_needed_call l used).2 = used ++ l.map (fun e => e.2) :=
  pnc_foldl l ([], used)

theorem codeGenNew_snd (om : OrderedMaps) :
    (codeGenNew om).2 =
      om.params.map (fun e => e.2) ++ om.globals.map (fun e => e.2) ++
      om.loads.map (fun e => e.2) ++ om.calls.map (fun e => e.2) ++
      om.call_indirects.map (fun e => e.2) := by
  unfold codeGenNew
  simp only [process_needed_state_snd, process_needed_call_snd]
  simp [List.append_assoc]

/-! ## Claim theorems -/

/-- C1: the Reducer never runs to completion — `reduce.rs::visit_op` is
`todo!()`, so `reduce_slice` panics on the first opcode of EVERY non-empty
body, and `min_slice` / `taken` are never populated (the loop would extend
`instrs_support` anyway).  This contradicts the claim (and the repository's
own tests, which expect minimal-variant probes). -/
theorem C1_reduce_slice_panics (slice : Slice) (op : Op) (rest : List Op) :
    reduce_slice_func (op :: rest) slice = .error "not yet implemented" := rfl

/-- C2 counterexample: two runs of the embedded pipeline on the byte-identical
module `mTwoParams`, under two legal `HashMap` iteration orders (identity and
reversed), produce different probe descriptors — the probe's parameter type
list comes out `[i32, i64]` in one run and `[i64, i32]` in the other, so the
emitted modules are not byte-identical. -/
theorem C2_counterexample :
    doAnalysisCore idOracle .Exact mTwoParams ≠
      doAnalysisCore revOracle .Exact mTwoParams := by decide

/-- C2 amended: emission is deterministic only up to the `HashMap` iteration
order; two runs agree whenever every state map of every slice has at most one
entry (so all lawful iteration orders coincide). -/
theorem C2_amended (m : ModuleInput) (ty : CompType) (o₁ o₂ : OrderOracle)
    (ft : List FuncState) (sl : List SliceResult)
    (h₁ : o₁.Lawful) (h₂ : o₂.Lawful)
    (hft : analyzeModule m = .ok ft)
    (hps : pipelineSlices m = .ok sl)
    (hsmall : ∀ r ∈ sl, ∀ ks ∈ r.slices, Slice.smallMaps ks.2) :
    doAnalysisCore o₁ ty m = doAnalysisCore o₂ ty m := by
  unfold doAnalysisCore
  rw [hft, except_bind_ok, hps, except_bind_ok]
  exact codegen_congr h₁ h₂ ty m sl ft hsmall

/-- C2 witness: on `mOneParam` (all state maps have one entry) the identity
and reversed iteration orders give identical outputs. -/
theorem C2_amended_witness :
    doAnalysisCore idOracle .Exact mOneParam =
      doAnalysisCore revOracle .Exact mOneParam :=
  C2_amended mOneParam .Exact idOracle revOracle [fsOneParam] slOneParam
    ⟨fun l => List.Perm.refl l, fun l => List.Perm.refl l⟩
    ⟨fun l => List.reverse_perm l, fun l => List.reverse_perm l⟩
    (by decide) (by decide) (by decide)

/-- C3 counterexample: the analyzer logs `Control` for `Select` (body index
3 of `bodySelect`), which is not in the claim's list; and `Return` logs no
`InstrInfo` at all (the two-opcode body `[Return, End]` yields ONE record, of
kind `Other`), so `Return` is not logged as `Control`. -/
theorem C3_counterexample :
    (analyzeFunc ctx0 0 bodySelect).map
        (fun fs => fs.instrs.map (fun i => i.kind)) =
      .ok [.Other, .Other, .Other, .Control, .Other, .Other] ∧
    bodySelect.get? 3 = some .select ∧ claimControlB .select = false ∧
    (analyzeFunc ctx0 0 [.return_, .end_]).map
        (fun fs => fs.instrs.map (fun i => i.kind)) = .ok [.Other] ∧
    claimControlB .return_ = true := by decide

/-- C3 amended: the `InstrInfo` log lists, in order, one record per
non-`Return` opcode of the body (`Return` logs nothing), and a record's kind
is `Control` exactly when `opKindOf` of its opcode is `Control` — i.e. for
the conditional branches, `If`, and `Select`. -/
theorem C3_amended (ctx : ModuleCtx) (fid : ℕ) (body : List Op)
    (fs : FuncState) (h : analyzeFunc ctx fid body = .ok fs) :
    fs.instrs.map (fun i => i.kind) =
      (body.filter (fun o => o != .return_)).map opKindOf := by
  obtain ⟨ft, st, hgo, hinstr⟩ := analyzeFunc_shape h
  rw [hinstr]
  have := analyzeGo_kinds body 0 ⟨[], [], []⟩ st hgo
  simpa using this

/-- C3 witness: the amended statement instantiated on `bodySelect`. -/
theorem C3_amended_witness :
    fsSelect.instrs.map (fun i => i.kind) =
      (bodySelect.filter (fun o => o != .return_)).map opKindOf :=
  C3_amended ctx0 0 bodySelect fsSelect (by decide)

/-- C4: `FuncTaint::new` initializes `local_origin` to the EMPTY vector (the
sizing code is commented out in the source), so the indexed store
`state.local_origin[idx] = val` in the `LocalSet` arm panics with an
out-of-bounds error on every function that contains a `LocalSet` — here on
the three-opcode body `[I32Const 0, LocalSet 0, End]`. -/
theorem C4_localSet_out_of_bounds :
    analyzeFunc ctx0 0 [.i32Const 0, .localSet 0, .end_] =
      .error "index out of bounds" := by decide

/-- C5 counterexample: under the (legal) reversed iteration order the probe
for `mTwoParams`'s function-level slice gets parameter list `[i64, i32]`,
while the spec's sorted concatenation of the same slice's maps is
`[i32, i64]` — the emitted parameter list is NOT sorted by key. -/
theorem C5_counterexample :
    (doAnalysisCore revOracle .Exact mTwoParams).map
        (fun l => l.map (fun p => (p.1, p.2.map ProbeDesc.usedParams))) =
      .ok [(0, [[.i64, .i32]])] ∧
    (pipelineSlices mTwoParams).map
        (fun l => l.map (fun r => r.slices.map (fun ks => specParamOrder ks.2))) =
      .ok [[[.i32, .i64]]] ∧
    ([DataType.i64, DataType.i32] ≠ [DataType.i32, DataType.i64]) := by decide

/-- C5 amended: the probe's parameter list is the concatenation of the five
state maps in the fixed order params, globals, loads, calls, call-indirects —
but each map contributes its entries in `HashMap` iteration order (no
sorting). -/
theorem C5_amended (ty : CompType) (orig_fid : ℕ) (spec_name : String)
    (om : OrderedMaps) :
    (gen_func_desc ty orig_fid spec_name om).usedParams =
      om.params.map (fun e => e.2) ++ om.globals.map (fun e => e.2) ++
      om.loads.map (fun e => e.2) ++ om.calls.map (fun e => e.2) ++
      om.call_indirects.map (fun e => e.2) := by
  unfold gen_func_desc
  exact codeGenNew_snd om

/-- C6 counterexample: `Return` logs no record, so the log misaligns with
body indices; on `bodyShifted` the record at position 2 carries the input
`Origin.instr 3` — a FORWARD reference under the claim's indexing
(`backwardRefsB` comes out `false` on a successfully analyzed function). -/
theorem C6_counterexample :
    (analyzeFunc ctx0 0 bodyShifted).map backwardRefsB = .ok false := by decide

/-- C6 amended: for every successfully analyzed function whose body contains
no `Return` (so the log aligns with body indices), every index-carrying
origin in every record's inputs references a strictly smaller instruction
index. -/
theorem C6_amended (ctx : ModuleCtx) (fid : ℕ) (body : List Op)
    (fs : FuncState) (h : analyzeFunc ctx fid body = .ok fs)
    (hret : Op.return_ ∉ body) : InfoBound fs.instrs := by
  obtain ⟨ft, st, hgo, hinstr⟩ := analyzeFunc_shape h
  rw [hinstr]
  have hinv0 : AnalyzeInv 0 ⟨[], [], []⟩ :=
    ⟨rfl, fun o ho => absurd ho (by simp), fun o ho => absurd ho (by simp),
     fun i info hi => by simp at hi⟩
  have hall : ∀ op ∈ body, op ≠ Op.return_ := by
    intro op hop hcontra
    exact hret (hcontra ▸ hop)
  have := analyzeGo_inv body 0 ⟨[], [], []⟩ st hgo hall hinv0
  exact this.2.2.2

/-- C6 witness: the amended statement instantiated on `mOneParam`'s
function. -/
theorem C6_amended_witness : InfoBound fsOneParam.instrs :=
  C6_amended ⟨[⟨[.i32], []⟩], [0], []⟩ 0
    [.localGet 0, .if_ .empty, .end_, .end_] fsOneParam
    (by decide) (by decide)

/-- C7 counterexample: running the pipeline on `mIfElse`, the `If` at index 1
is in `max_slice` AND lands in `instrs_support` (it is committed together
with the block-support set at the block's `End`), so the two sets are not
disjoint. -/
theorem C7_counterexample :
    (pipelineSlices mIfElse).map
        (fun l => l.map (fun r => r.slices.map (fun ks =>
          (decide (1 ∈ ks.2.max_slice), decide (1 ∈ ks.2.instrs_support))))) =
      .ok [[(true, true)]] := by decide

/-- C7 amended: the only filter the structuralizer applies is positional —
`visit_op` returns the empty support set when the opcode IT IS VISITING is in
`max_slice`; sets committed at an out-of-slice `End` may still contain
indices of `max_slice` (block openers, conditional branches), so
`max_slice` and `instrs_support` can overlap. -/
theorem C7_amended (op : Op) (instr_idx : ℕ) (at_func_end : Bool)
    (state : IdentifyStructure) :
    (visit_op op instr_idx at_func_end true state).1 = ∅ := by
  simp [visit_op]

/-- C8 counterexample: `BrOnNull` is NOT modeled by the stack-effects table
(its `stack_effects` arm is `todo!("support GC opcodes")`), yet the analyzer
special-cases it in the conditional-branch arm and analyzes the module
successfully — no fatal `UnsupportedOpcode` error is raised at all.  (For
opcodes that DO reach the table, the panic message is the constant category
string, carrying neither FID nor instruction index.) -/
theorem C8_counterexample :
    unsupportedMnemonic (.brOnNull 0) = some "support GC opcodes" ∧
    analyzeModule ⟨ctx0, [(0, [.i32Const 0, .brOnNull 0, .end_])]⟩ =
      .ok [⟨0, 0, [⟨.Other, []⟩, ⟨.Control, [.const 0]⟩, ⟨.Other, []⟩]⟩] ∧
    analyzeModule ⟨ctx0, [(0, [.refIsNull, .end_])]⟩ =
      .error "support GC opcodes" ∧
    analyzeModule ⟨⟨[⟨[], []⟩], [0, 0], []⟩,
        [(0, [.nop, .end_]), (1, [.nop, .nop, .refIsNull, .end_])]⟩ =
      .error "support GC opcodes" := by decide

/-- C8 amended: if analysis of a module succeeds, every opcode of every
function is either modeled by the stack-effects table or is one of the GC
conditional branches (`BrOnNull`/`BrOnNonNull`/`BrOnCast`/`BrOnCastFail`)
that the analyzer special-cases before consulting the table; equivalently,
any OTHER unsupported opcode aborts the analysis (with the table's fixed
per-category panic message, which carries neither FID nor index). -/
theorem C8_amended (m : ModuleInput) (states : List FuncState)
    (h : analyzeModule m = .ok states) : SupportedIn m := by
  intro fb hfb op hop
  unfold analyzeModule List.mapM at h
  obtain ⟨fs, hfs⟩ := except_mapM_ok_mem h fb hfb
  obtain ⟨ft, st, hgo, _⟩ := analyzeFunc_shape hfs
  exact analyzeGo_supported fb.2 0 ⟨[], [], []⟩ st hgo op hop

/-- C8 witness: the amended statement instantiated on `mNop`. -/
theorem C8_amended_witness : SupportedIn mNop :=
  C8_amended mNop [⟨0, 0, [⟨.Other, []⟩, ⟨.Other, []⟩]⟩] (by decide)

/-- C9: under the `Exact` variant, a fuel-accumulation point with running
total `curr_cost > 0` emits exactly
`local.get fuel; i64.const curr_cost; i64.add; local.set fuel`, and emits
nothing when the running total is zero. -/
theorem C9_fuel_sequence (fuel curr_cost : ℕ) (h : curr_cost < 2 ^ 63) :
    gen_fuel_comp .Exact fuel curr_cost =
      .ok (if 0 < curr_cost then
        [.localGet fuel, .i64Const (curr_cost : Int), .i64Add, .localSet fuel]
      else []) := by
  have h' : curr_cost < 9223372036854775808 := by
    norm_num at h
    exact h
  simp [gen_fuel_comp, gen_fuel_comp_exact, i64OfU64, h']

/-- C9 witness: the emitted sequences at running totals 3 and 0. -/
theorem C9_fuel_sequence_witness :
    gen_fuel_comp .Exact 0 3 =
      .ok [.localGet 0, .i64Const 3, .i64Add, .localSet 0] ∧
    gen_fuel_comp .Exact 0 0 = .ok [] := by
  refine ⟨?_, ?_⟩
  · have := C9_fuel_sequence 0 3 (by norm_num)
    simpa using this
  · have := C9_fuel_sequence 0 0 (by norm_num)
    simpa using this

/-- C10: the backward-slicing worklist loop terminates within
`sliceTraceFuel` steps — the pending worklist plus one traversal of every
origin edge of every not-yet-included instruction: running it with any extra
fuel changes nothing (ALL the computation happens in the first
`sliceTraceFuel` steps; re-insertion of an included index is a no-op and
enqueues nothing), and a normal completion ends with an empty worklist. -/
theorem C10_worklist_terminates (ctx : ModuleCtx) (ops : List Op)
    (fp : List DataType) (info : List InstrInfo) (s : SliceSt) :
    (∀ extra, sliceTrace ctx ops fp info (sliceTraceFuel info s + extra) s =
      sliceTrace ctx ops fp info (sliceTraceFuel info s) s) ∧
    ((sliceTrace ctx ops fp info (sliceTraceFuel info s) s).toOption.all
      (fun s' => s'.worklist.isEmpty)) = true := by
  constructor
  · intro extra
    exact sliceTrace_stable ctx ops fp info _ s (le_refl _) extra
  · cases htr : sliceTrace ctx ops fp info (sliceTraceFuel info s) s with
    | error e => rfl
    | ok s' =>
      have := sliceTrace_empties ctx ops fp info _ s s' (le_refl _) htr
      simp [Except.toOption, Option.all, this]
